import Mathlib

/-!
Shallow embedding of the tern-dronescape-metashape helper logic.

The repository drives the Metashape SDK; the locally owned logic embedded
here is:
  * `scripts/functions/camera_ops.py` — `configure_multispectral_camera`,
    `remove_images_outside_rgb_times`, `camera_filtering`;
  * `scripts/metashape/image_utils.py` — `filter_images_by_timestamp`,
    `filter_multispec_by_flight_pattern`;
  * `scripts/metashape/markers.py` — `read_marker_file`.

Modelling conventions:
  * A Metashape chunk is a `List Camera`; `chunk.remove` applied with a
    predicate that depends only on camera fields is embedded as `List.filter`
    on the kept cameras (`chunk.cameras` yields a fresh snapshot list, so
    removal during the loop does not skip elements).
  * `datetime.datetime` values produced by `strptime` are embedded as `DT`
    (days since an arbitrary epoch plus hour/minute/second fields);
    `datetime.timestamp()` and `datetime` comparison are both strictly
    monotone in chronological order, so all comparisons are embedded through
    `DT.toSec`.
  * Python library string-to-datetime and string-to-float parsing is
    abstracted to its outcome (`TSParse`, respectively an oracle
    `String → Option ℚ`): the repository's control flow only branches on
    success or failure of those library calls.
  * Python floats are embedded as exact rationals `ℚ`.
-/

namespace TernDrone

/-- Parsed naive datetime: day index (days since an arbitrary epoch) plus
hour, minute, second fields, as produced by `datetime.strptime`. -/
structure DT where
  day : ℤ
  hour : ℕ
  minute : ℕ
  second : ℕ
deriving DecidableEq

/-- Seconds since the epoch, the embedding of `datetime.timestamp()`. -/
def DT.toSec (dt : DT) : ℤ :=
  dt.day * 86400 + dt.hour * 3600 + dt.minute * 60 + dt.second

/-- Python `str.startswith`, character-for-character on the string data. -/
def pyStarts (s pre : String) : Bool := pre.data.isPrefixOf s.data

/-- Embedding of the PM heuristic of `camera_ops.py` (lines 112-113 and
183-184): `if dt.hour < 12: dt = dt.replace(hour=dt.hour + 12)`. -/
def pmFix (dt : DT) : DT :=
  if dt.hour < 12 then { dt with hour := dt.hour + 12 } else dt

/-- Outcome of `datetime.datetime.strptime` on a metadata string: either a
parsed datetime or a `ValueError`. -/
inductive TSParse where
  | ok (dt : DT)
  | fail
deriving DecidableEq

/-- The photo metadata dictionary restricted to the two keys the code reads.
`none` at a key means the key is absent. -/
structure MetaDict where
  exifDTO : Option TSParse
  xmpDTO : Option TSParse
deriving DecidableEq

/-- `camera.photo.meta`: `none` embeds a falsy (`None` or empty) dictionary. -/
structure Photo where
  meta : Option MetaDict
deriving DecidableEq

/-- A Metashape camera restricted to the fields the embedded functions read:
label, master's label, photo metadata, `reference.location`, group label and
the enabled flag. -/
structure Camera where
  label : String
  masterLabel : String
  photo : Photo
  location : Option (ℚ × ℚ × ℚ)
  groupLabel : Option String
  enabled : Bool
deriving DecidableEq

/-- True when the camera belongs to a group labeled `Calibration images`
(`camera.group and camera.group.label == 'Calibration images'`). -/
def Camera.isCalib (c : Camera) : Bool :=
  match c.groupLabel with
  | some g => g == "Calibration images"
  | none => false

/-- Minimum of a list, `none` on the empty list (embeds Python `min`). -/
def listMin : List ℤ → Option ℤ
  | [] => none
  | x :: xs => some (xs.foldl min x)

/-- Maximum of a list, `none` on the empty list (embeds Python `max`). -/
def listMax : List ℤ → Option ℤ
  | [] => none
  | x :: xs => some (xs.foldl max x)

/-- Minimum with junk default `0`; only used beneath non-emptiness checks. -/
def minD (l : List ℤ) : ℤ := (listMin l).getD 0

/-- Maximum with junk default `0`; only used beneath non-emptiness checks. -/
def maxD (l : List ℤ) : ℤ := (listMax l).getD 0

namespace CamOps

/-- Per-camera step of `get_camera_timestamps` (camera_ops.py lines 96-117):
prefix check, master check, truthy-meta check, key lookup, parse, PM fix,
`timestamp()`. Returns the collected timestamp, if any. -/
def gctF (pre : String) (c : Camera) : Option ℤ :=
  if ¬ pyStarts c.label pre then none
  else if ¬ c.label == c.masterLabel then none
  else
    match c.photo.meta with
    | none => none
    | some d =>
      match d.exifDTO with
      | some (TSParse.ok dt) => some (DT.toSec (pmFix dt))
      | some TSParse.fail => none
      | none => none

/-- `get_camera_timestamps(prefix)`: the list of timestamps of master cameras
with the given label prefix and parseable `Exif/DateTimeOriginal`. -/
def gct (pre : String) (cams : List Camera) : List ℤ :=
  cams.filterMap (gctF pre)

/-- Center of a capture window: `(min(ts) + max(ts)) / 2` (lines 136-137). -/
def centerOf (l : List ℤ) : ℚ := ((minD l : ℚ) + (maxD l : ℚ)) / 2

/-- Python `round` (banker's rounding, round half to even) on a rational. -/
def pyRound (q : ℚ) : ℤ :=
  if Int.fract q < 1 / 2 then ⌊q⌋
  else if 1 / 2 < Int.fract q then ⌊q⌋ + 1
  else if ⌊q⌋ % 2 = 0 then ⌊q⌋ else ⌊q⌋ + 1

/-- `MAX_OFFSET_HOURS` (camera_ops.py line 94). -/
def MAX_OFFSET_HOURS : ℤ := 6

/-- The candidate offsets `range(-MAX_OFFSET_HOURS, MAX_OFFSET_HOURS + 1)`. -/
def offsetRange : List ℤ := (List.range 13).map (fun i => (i : ℤ) - 6)

/-- One iteration of the exhaustive-search loop (lines 146-153): state is
`(best_offset, min_diff)` with `none` embedding the initial `float('inf')`. -/
def searchStep (msc rgbc : ℚ) (st : ℤ × Option ℚ) (o : ℤ) : ℤ × Option ℚ :=
  let d := |msc - (o : ℚ) * 3600 - rgbc|
  match st.2 with
  | none => (o, some d)
  | some m => if d < m then (o, some d) else st

/-- The exhaustive search over hour offsets in `[-6, 6]` (lines 146-154). -/
def bestOffsetSearch (msc rgbc : ℚ) : ℤ :=
  (offsetRange.foldl (searchStep msc rgbc) (0, none)).1

/-- Offset selection from the two window centers (lines 140-157): round to
the nearest hour when the raw offset is within `MAX_OFFSET_HOURS`, otherwise
search hour offsets exhaustively. Result is `time_offset` in seconds. -/
def offsetFromCenters (msc rgbc : ℚ) : ℚ :=
  let raw := (msc - rgbc) / 3600
  if (MAX_OFFSET_HOURS : ℚ) < |raw| then ((bestOffsetSearch msc rgbc : ℚ)) * 3600
  else ((pyRound raw : ℚ)) * 3600

/-- `time_offset` computed from the two timestamp lists. -/
def computeTimeOffset (rgbT msT : List ℤ) : ℚ :=
  offsetFromCenters (centerOf msT) (centerOf rgbT)

/-- Marking condition of the loop at lines 168-198: multispectral master
camera with parseable `Exif/DateTimeOriginal` whose offset-corrected time
falls strictly outside the RGB window and that has a truthy reference
location; such cameras get their label recorded in `del_camera_names`. -/
def msMarked (firstR lastR off : ℚ) (c : Camera) : Bool :=
  pyStarts c.label "IMG_" && c.label == c.masterLabel &&
  (match c.photo.meta with
   | none => false
   | some d =>
     match d.exifDTO with
     | some (TSParse.ok dt) =>
       let t : ℚ := ((DT.toSec (pmFix dt) : ℤ) : ℚ) - off
       (decide (t < firstR) || decide (lastR < t)) && c.location.isSome
     | some TSParse.fail => false
     | none => false)

/-- The altitude-zeroing mutation applied to marked cameras (lines 190-194). -/
def setAlt0 (c : Camera) : Camera :=
  { c with location := c.location.map (fun p => (p.1, p.2.1, 0)) }

/-- `del_camera_names` as computed by the marking loop, given the chunk. -/
def delNamesOf (cams : List Camera) : List String :=
  let rgbT := gct "DJI_" cams
  let msT := gct "IMG_" cams
  let off := computeTimeOffset rgbT msT
  ((cams.filter (msMarked ((minD rgbT : ℤ) : ℚ) ((maxD rgbT : ℤ) : ℚ) off)).map
    (fun c => c.label))

/-- `first_rgb_time` of the chunk (line 126), as a rational. -/
def firstRgbOf (cams : List Camera) : ℚ := ((minD (gct "DJI_" cams) : ℤ) : ℚ)

/-- `last_rgb_time` of the chunk (line 127), as a rational. -/
def lastRgbOf (cams : List Camera) : ℚ := ((maxD (gct "DJI_" cams) : ℤ) : ℚ)

/-- `time_offset` of the chunk (lines 140-157). -/
def timeOffsetOf (cams : List Camera) : ℚ :=
  computeTimeOffset (gct "DJI_" cams) (gct "IMG_" cams)

/-- `remove_images_outside_rgb_times` (camera_ops.py lines 85-209): collect
timestamps, return unchanged on an empty list, compute the offset, mark and
altitude-zero the out-of-window multispectral masters, then delete every
non-calibration camera whose label was marked. -/
def removeImagesOutsideRgbTimes (cams : List Camera) : List Camera :=
  let rgbT := gct "DJI_" cams
  if rgbT = [] then cams
  else
    let msT := gct "IMG_" cams
    if msT = [] then cams
    else
      let off := computeTimeOffset rgbT msT
      let firstR : ℚ := ((minD rgbT : ℤ) : ℚ)
      let lastR : ℚ := ((maxD rgbT : ℤ) : ℚ)
      let marked := msMarked firstR lastR off
      let delNames := (cams.filter marked).map (fun c => c.label)
      let cams1 := cams.map (fun c => if marked c then setAlt0 c else c)
      cams1.filter (fun c => c.isCalib || ¬ delNames.contains c.label)

/-- RGB-chunk half of `camera_filtering` (lines 211-230): remove every
non-calibration camera whose label starts with `IMG_`. -/
def cameraFilteringRgb (rgbCams : List Camera) : List Camera :=
  rgbCams.filter (fun c => ¬ (¬ c.isCalib && pyStarts c.label "IMG_"))

/-- Multispec-chunk half of `camera_filtering` (lines 211-233): remove every
non-calibration camera whose label starts with `DJI_`. -/
def cameraFilteringMs (msCams : List Camera) : List Camera :=
  msCams.filter (fun c => ¬ (¬ c.isCalib && pyStarts c.label "DJI_"))

/-- Projection of a camera to the fields `remove_images_outside_rgb_times`
reads: label, master label, photo metadata and reference location. -/
def proj (c : Camera) : String × String × Photo × Option (ℚ × ℚ × ℚ) :=
  (c.label, c.masterLabel, c.photo, c.location)

end CamOps

/-- A Metashape sensor restricted to the fields `configure_multispectral_camera`
reads: label and layer index (`none` embeds a sensor without the
`layer_index` attribute, such as the RGB sensor). -/
structure Sensor where
  label : String
  layerIndex : Option ℤ
deriving DecidableEq

/-- Scan for an occurrence of `pat` at any position. -/
def containsSubAux (pat : List Char) : List Char → Bool
  | [] => pat.isPrefixOf []
  | c :: rest => pat.isPrefixOf (c :: rest) || containsSubAux pat rest

/-- Python substring test `pat in s`. -/
def containsSub (s pat : String) : Bool := containsSubAux pat.data s.data

namespace CamOps

/-- Lookup in an assoc-list dictionary where later insertions overwrite
earlier ones; default `0` is never reached when the key is present. -/
def lookupD (m : List (ℤ × ℤ)) (k : ℤ) : ℤ :=
  match m.reverse.find? (fun p => p.1 == k) with
  | some p => p.2
  | none => 0

/-- `index_mapping` of `configure_multispectral_camera` (lines 44-58): Panchro
goes to 10, indices above the original Panchro index drop by one, the rest
stay. The dictionary is an assoc list with one entry appended per sensor in
iteration order; `lookupD` takes the last matching entry, which is exactly
Python's overwrite-on-assignment semantics. -/
def panchroMapping (multispec : List Sensor) (p : ℤ) : List (ℤ × ℤ) :=
  multispec.filterMap (fun s =>
    s.layerIndex.map (fun i =>
      (i, if containsSub s.label "Panchro" then 10
          else if p < i then i - 1 else i)))

/-- `configure_multispectral_camera` (camera_ops.py lines 4-83): find the
Panchro sensor among the sensors carrying a layer index, build the index
mapping, then apply it in two phases through the `+100` temporary offset.
The `makeMaster` SDK call does not touch layer indices and is not modelled. -/
def configureMultispectralCamera (sensors : List Sensor) : List Sensor :=
  let multispec := sensors.filter (fun s => s.layerIndex.isSome)
  if multispec.isEmpty then sensors
  else
    match multispec.find? (fun s => containsSub s.label "Panchro") with
    | none => sensors
    | some pan =>
      let p := pan.layerIndex.getD 0
      let mapping := panchroMapping multispec p
      let phase1 := sensors.map (fun s =>
        match s.layerIndex with
        | none => s
        | some i => { s with layerIndex := some (lookupD mapping i + 100) })
      phase1.map (fun s =>
        match s.layerIndex with
        | none => s
        | some i => { s with layerIndex := some (i - 100) })

end CamOps

namespace ImgUtils

/-- Timestamp extraction of `filter_images_by_timestamp` (image_utils.py
lines 58-92): skip disabled cameras and falsy metadata, read
`Exif/DateTimeOriginal` falling back to `Xmp/DateTimeOriginal`, then parse.
Comparisons on `datetime` values are embedded through `DT.toSec`, which is
strictly monotone in chronological order. -/
def extractTS (c : Camera) : Option ℤ :=
  if ¬ c.enabled then none
  else
    match c.photo.meta with
    | none => none
    | some d =>
      match (match d.exifDTO with | some t => some t | none => d.xmpDTO) with
      | none => none
      | some TSParse.fail => none
      | some (TSParse.ok dt) => some dt.toSec

/-- The collected RGB timestamps (`DJI_` prefix). -/
def rgbTimes (cams : List Camera) : List ℤ :=
  cams.filterMap (fun c => if pyStarts c.label "DJI_" then extractTS c else none)

/-- The collected multispectral timestamps (`IMG_` prefix). -/
def msTimes (cams : List Camera) : List ℤ :=
  cams.filterMap (fun c => if pyStarts c.label "IMG_" then extractTS c else none)

/-- Removal test of `filter_images_by_timestamp` (lines 114-123): an `IMG_`
camera with an extracted timestamp strictly outside the buffered RGB
window. -/
def fibtRemovePred (minT maxT buf : ℤ) (c : Camera) : Bool :=
  pyStarts c.label "IMG_" &&
  (match extractTS c with
   | none => false
   | some t => decide (t < minT - buf) || decide (maxT + buf < t))

/-- `filter_images_by_timestamp` (image_utils.py lines 38-130). -/
def filterImagesByTimestamp (cams : List Camera) (buf : ℤ) : List Camera :=
  let rgbT := rgbTimes cams
  if rgbT = [] then cams
  else
    let msT := msTimes cams
    if msT = [] then cams
    else cams.filter (fun c => ¬ fibtRemovePred (minD rgbT) (maxD rgbT) buf c)

/-- Camera selection of `filter_multispec_by_flight_pattern` (lines 152-165)
for the RGB set: enabled, with reference location, `DJI_` prefix. -/
def rgbPred (c : Camera) : Bool :=
  c.enabled && c.location.isSome && pyStarts c.label "DJI_"

/-- Camera selection of `filter_multispec_by_flight_pattern` (lines 152-165)
for the multispectral set: enabled, with reference location, `IMG_` prefix. -/
def msPred (c : Camera) : Bool :=
  c.enabled && c.location.isSome && pyStarts c.label "IMG_"

/-- Insertion into a sorted rational list. -/
def insertSorted (x : ℚ) : List ℚ → List ℚ
  | [] => [x]
  | y :: ys => if x ≤ y then x :: y :: ys else y :: insertSorted x ys

/-- Insertion sort, the embedding of numpy's internal sort. -/
def isort (l : List ℚ) : List ℚ := l.foldr insertSorted []

/-- `np.percentile(l, q)` with the default linear interpolation: position
`(n - 1) * q / 100` on the sorted data, interpolated between the two
surrounding order statistics. -/
def pctl (q : ℚ) (l : List ℚ) : ℚ :=
  let s := isort l
  let pos : ℚ := ((s.length : ℚ) - 1) * q / 100
  let i : ℤ := ⌊pos⌋
  let frac : ℚ := pos - (i : ℚ)
  let a := s.getD i.toNat 0
  let b := s.getD (i.toNat + 1) 0
  a + frac * (b - a)

/-- The expanded percentile bounding box (lines 186-202). -/
structure Box where
  xlo : ℚ
  xhi : ℚ
  ylo : ℚ
  yhi : ℚ
  zlo : ℚ
  zhi : ℚ
deriving DecidableEq

/-- Box construction (lines 186-202): per-axis 5th and 95th percentiles of
the RGB coordinates, each axis widened on both ends by `spatial_threshold`
times that axis's percentile extent. -/
def boxOf (coords : List (ℚ × ℚ × ℚ)) (st : ℚ) : Box :=
  let xs := coords.map (fun p => p.1)
  let ys := coords.map (fun p => p.2.1)
  let zs := coords.map (fun p => p.2.2)
  let x5 := pctl 5 xs
  let x95 := pctl 95 xs
  let y5 := pctl 5 ys
  let y95 := pctl 95 ys
  let z5 := pctl 5 zs
  let z95 := pctl 95 zs
  { xlo := x5 - (x95 - x5) * st, xhi := x95 + (x95 - x5) * st,
    ylo := y5 - (y95 - y5) * st, yhi := y95 + (y95 - y5) * st,
    zlo := z5 - (z95 - z5) * st, zhi := z95 + (z95 - z5) * st }

/-- Membership test of lines 210-217. -/
def inBox (b : Box) (p : ℚ × ℚ × ℚ) : Bool :=
  decide (b.xlo ≤ p.1) && decide (p.1 ≤ b.xhi) &&
  decide (b.ylo ≤ p.2.1) && decide (p.2.1 ≤ b.yhi) &&
  decide (b.zlo ≤ p.2.2) && decide (p.2.2 ≤ b.zhi)

/-- `np.mean`. -/
def meanQ (l : List ℚ) : ℚ := l.sum / (l.length : ℚ)

/-- The square of `np.std` (denominator `n`, the numpy default). -/
def varQ (l : List ℚ) : ℚ :=
  ((l.map (fun x => (x - meanQ l) ^ 2)).sum) / (l.length : ℚ)

/-- Altitude window test of the fallback branch (lines 230-247):
`alt_min <= z <= alt_max` with `alt_min = mean - 2*std` and
`alt_max = mean + 2*std`. Because `std` is an irrational square root, the
test is embedded by the equivalent squared comparison
`(z - mean)^2 <= 4 * var`. -/
def altIn (m v z : ℚ) : Bool := decide ((z - m) ^ 2 ≤ 4 * v)

/-- The position test a multispectral camera must fail to be removed; `test`
is the box test or, in the fallback, the altitude test. -/
def locOutside (test : (ℚ × ℚ × ℚ) → Bool) (c : Camera) : Bool :=
  match c.location with
  | some p => ¬ test p
  | none => false

/-- `ms_outside_area` (lines 207-217 resp. 241-249). -/
def msOutsideList (cams : List Camera) (test : (ℚ × ℚ × ℚ) → Bool) : List Camera :=
  (cams.filter msPred).filter (locOutside test)

/-- `chunk.remove(ms_outside_area)` (lines 255-257). -/
def removeOutside (cams : List Camera) (test : (ℚ × ℚ × ℚ) → Bool) : List Camera :=
  cams.filter (fun c => ¬ (msPred c && locOutside test c))

/-- The fraction of multispectral cameras inside the expanded box
(line 219). -/
def inAreaFracOf (cams : List Camera) (st : ℚ) : ℚ :=
  let ms := cams.filter msPred
  let coords := (cams.filter rgbPred).filterMap (fun c => c.location)
  let box := boxOf coords st
  ((ms.filter (fun c => ¬ locOutside (inBox box) c)).length : ℚ) / (ms.length : ℚ)

/-- `filter_multispec_by_flight_pattern` (image_utils.py lines 132-261):
returns the filtered chunk together with the returned removal count. -/
def fmfp (cams : List Camera) (st kf : ℚ) : List Camera × ℕ :=
  let rgbs := cams.filter rgbPred
  let ms := cams.filter msPred
  if rgbs = [] then (cams, 0)
  else if ms = [] then (cams, 0)
  else
    let coords := rgbs.filterMap (fun c => c.location)
    let boxTest := inBox (boxOf coords st)
    if inAreaFracOf cams st < kf then
      let zs := coords.map (fun p => p.2.2)
      let altTest := fun p : ℚ × ℚ × ℚ => altIn (meanQ zs) (varQ zs) p.2.2
      (removeOutside cams altTest, (msOutsideList cams altTest).length)
    else
      (removeOutside cams boxTest, (msOutsideList cams boxTest).length)

end ImgUtils

namespace Markers

/-- The whitespace characters of Python `str.strip` and `str.split()`. -/
def pyWS (ch : Char) : Bool :=
  ch == ' ' || ch == '\t' || ch == '\n' || ch == '\r' || ch == '\x0b' || ch == '\x0c'

/-- Python `str.strip()`. -/
def pyStrip (s : String) : String :=
  ⟨((s.toList.dropWhile pyWS).reverse.dropWhile pyWS).reverse⟩

/-- Python `str.split(sep)`: with a separator string every occurrence splits
and empty pieces are kept; with `None` the string is split on whitespace runs
and empty pieces are dropped. -/
def splitSep : Option String → String → List String
  | some t, s => s.splitOn t
  | none, s => (s.split pyWS).filter (fun p => ¬ p == "")

/-- The cleanup `[p.strip() for p in parts if p.strip()]` (markers.py
line 48). -/
def cleanParts (parts : List String) : List String :=
  (parts.map pyStrip).filter (fun p => ¬ p == "")

/-- The separators tried in order (markers.py line 43). -/
def seps : List (Option String) := [some ",", some "\t", none]

/-- The separator loop (markers.py lines 42-50): first separator whose raw
split has at least four parts and whose cleaned split still has at least
four wins; otherwise the line is reported unparseable. -/
def sepLoop : List (Option String) → String → Option (List String)
  | [], _ => none
  | sep :: rest, s =>
    let parts := splitSep sep s
    if 4 ≤ parts.length then
      let cleaned := cleanParts parts
      if 4 ≤ cleaned.length then some cleaned else sepLoop rest s
    else sepLoop rest s

/-- Claim-side helper: the non-empty stripped fields a separator yields. -/
def nonEmptyFields (sep : Option String) (t : String) : List String :=
  cleanParts (splitSep sep t)

/-- Processing of one line of a marker file (markers.py lines 36-63), with
Python `float` abstracted as the oracle `fp`: returns the dictionary entry
the line contributes, or `none` when the line is skipped with a printed
warning. -/
def processLine (fp : String → Option ℚ) (line : String) :
    Option (String × ℚ × ℚ × ℚ) :=
  let t := pyStrip line
  if t == "" then none
  else if pyStarts t "#" then none
  else
    match sepLoop seps t with
    | none => none
    | some parts =>
      match parts with
      | p0 :: p1 :: p2 :: p3 :: _ =>
        (match fp p1, fp p2, fp p3 with
         | some x, some y, some z => some (p0, x, y, z)
         | _, _, _ => none)
      | _ => none

/-- `read_marker_file` (markers.py lines 21-65) over the file's lines; the
returned dictionary is an assoc list where later entries overwrite earlier
ones. -/
def readMarkerFile (fp : String → Option ℚ) (lines : List String) :
    List (String × ℚ × ℚ × ℚ) :=
  lines.foldl
    (fun m line =>
      match processLine fp line with
      | none => m
      | some e => m ++ [e]) []

/-- Dictionary lookup on the assoc list: the last binding wins. -/
def dictLookup (m : List (String × ℚ × ℚ × ℚ)) (k : String) :
    Option (ℚ × ℚ × ℚ) :=
  (m.reverse.find? (fun e => e.1 == k)).map (fun e => e.2)

end Markers

namespace Ex

/-- A sample camera: master of itself, parseable Exif timestamp at the given
hour of day 0, a reference location, no group, enabled. -/
def cam (lab : String) (h : ℕ) : Camera :=
  { label := lab, masterLabel := lab,
    photo := { meta := some { exifDTO := some (TSParse.ok ⟨0, h, 0, 0⟩), xmpDTO := none } },
    location := some (1, 2, 3), groupLabel := none, enabled := true }

/-- A two-camera chunk with one RGB and one multispectral master. -/
def chunkA : List Camera := [cam "DJI_0001" 12, cam "IMG_0001" 13]

/-- The chunk refuting claim C2 as stated: two multispectral masters share
the label `IMG_1`; the 13:00 one falls outside the offset-corrected RGB
window and drags the in-window 14:00 one out with it. -/
def cexC2 : List Camera := [cam "DJI_1" 12, cam "IMG_1" 13, cam "IMG_1" 14]

/-- The in-window camera of `cexC2`. -/
def imgIn : Camera := cam "IMG_1" 14

/-- The chunk `chunkA` with its cameras in the opposite order. -/
def chunkArev : List Camera := [cam "IMG_0001" 13, cam "DJI_0001" 12]

/-- A calibration-group camera. -/
def calibCam : Camera := { cam "IMG_9" 13 with groupLabel := some "Calibration images" }

/-- A chunk containing the calibration camera. -/
def chunkC : List Camera := [cam "DJI_2" 12, calibCam]

/-- A typical multispectral sensor bank with Panchro at index 2. -/
def sensorBank : List Sensor :=
  [⟨"RGB", none⟩, ⟨"Blue", some 0⟩, ⟨"Green", some 1⟩, ⟨"Panchro", some 2⟩,
   ⟨"Red", some 3⟩, ⟨"NIR", some 4⟩]

/-- The Panchro sensor of `sensorBank`. -/
def panSensor : Sensor := ⟨"Panchro", some 2⟩

/-- A located camera for the flight-pattern witnesses. -/
def locCam (lab : String) (x y z : ℚ) : Camera :=
  { label := lab, masterLabel := lab, photo := { meta := none },
    location := some (x, y, z), groupLabel := none, enabled := true }

/-- Flight-pattern chunk whose multispectral camera sits inside the box. -/
def fmfpIn : List Camera :=
  [locCam "DJI_A" 0 0 0, locCam "DJI_B" 100 100 100, locCam "IMG_A" 50 50 50]

/-- Flight-pattern chunk whose multispectral camera sits far outside the
box, forcing the altitude fallback. -/
def fmfpOut : List Camera :=
  [locCam "DJI_A" 0 0 0, locCam "DJI_B" 1 1 1, locCam "IMG_A" 50 50 50]

end Ex

namespace CamOps

/-- Per-camera parsed `Exif/DateTimeOriginal` of a master camera with the
given prefix, before the PM fix (camera_ops.py lines 99-110). -/
def parsedDT (pre : String) (c : Camera) : Option DT :=
  if ¬ pyStarts c.label pre then none
  else if ¬ c.label == c.masterLabel then none
  else
    match c.photo.meta with
    | none => none
    | some d =>
      match d.exifDTO with
      | some (TSParse.ok dt) => some dt
      | some TSParse.fail => none
      | none => none

/-- `gctF` on the projected fields. -/
def gctP (pre : String) (t : String × String × Photo × Option (ℚ × ℚ × ℚ)) :
    Option ℤ :=
  if ¬ pyStarts t.1 pre then none
  else if ¬ t.1 == t.2.1 then none
  else
    match t.2.2.1.meta with
    | none => none
    | some d =>
      match d.exifDTO with
      | some (TSParse.ok dt) => some (DT.toSec (pmFix dt))
      | some TSParse.fail => none
      | none => none

/-- `msMarked` on the projected fields. -/
def msMarkedP (firstR lastR off : ℚ)
    (t : String × String × Photo × Option (ℚ × ℚ × ℚ)) : Bool :=
  pyStarts t.1 "IMG_" && t.1 == t.2.1 &&
  (match t.2.2.1.meta with
   | none => false
   | some d =>
     match d.exifDTO with
     | some (TSParse.ok dt) =>
       let v : ℚ := ((DT.toSec (pmFix dt) : ℤ) : ℚ) - off
       (decide (v < firstR) || decide (lastR < v)) && t.2.2.2.isSome
     | some TSParse.fail => false
     | none => false)

/-- The distance from `q` to `pyRound q` is at most a half. -/
theorem pyRound_dist (q : ℚ) : |q - (pyRound q : ℚ)| ≤ 1 / 2 := by
  have h0 : (0 : ℚ) ≤ Int.fract q := Int.fract_nonneg q
  have h1 : Int.fract q < 1 := Int.fract_lt_one q
  have hq : q - (⌊q⌋ : ℚ) = Int.fract q := (Int.self_sub_floor q)
  unfold pyRound
  split_ifs <;> rw [abs_le] <;> constructor <;> push_cast <;> linarith

/-- `pyRound q` is a nearest integer to `q`. -/
theorem pyRound_nearest (q : ℚ) (n : ℤ) :
    |q - (pyRound q : ℚ)| ≤ |q - (n : ℚ)| := by
  by_cases hn : n = pyRound q
  · subst hn; exact le_refl _
  · have hd : (1 : ℚ) ≤ |(pyRound q : ℚ) - (n : ℚ)| := by
      have : 1 ≤ |pyRound q - n| := Int.one_le_abs (by omega)
      calc (1 : ℚ) ≤ ((|pyRound q - n| : ℤ) : ℚ) := by exact_mod_cast this
        _ = |(pyRound q : ℚ) - (n : ℚ)| := by push_cast; rfl
    have htri : |(pyRound q : ℚ) - (n : ℚ)| ≤ |(pyRound q : ℚ) - q| + |q - (n : ℚ)| :=
      abs_sub_le _ _ _
    have hcomm : |(pyRound q : ℚ) - q| = |q - (pyRound q : ℚ)| := abs_sub_comm _ _
    have := pyRound_dist q
    linarith

/-- The exhaustive-search fold keeps, at every stage, the best offset seen so
far together with its distance. -/
theorem foldl_searchStep_spec (msc rgbc : ℚ) :
    ∀ (L : List ℤ) (b : ℤ),
      ((L.foldl (searchStep msc rgbc) (b, some (|msc - (b : ℚ) * 3600 - rgbc|))).2 =
        some (|msc - (((L.foldl (searchStep msc rgbc)
          (b, some (|msc - (b : ℚ) * 3600 - rgbc|))).1 : ℤ) : ℚ) * 3600 - rgbc|)) ∧
      ((L.foldl (searchStep msc rgbc) (b, some (|msc - (b : ℚ) * 3600 - rgbc|))).1 = b ∨
        (L.foldl (searchStep msc rgbc) (b, some (|msc - (b : ℚ) * 3600 - rgbc|))).1 ∈ L) ∧
      (|msc - ((L.foldl (searchStep msc rgbc)
          (b, some (|msc - (b : ℚ) * 3600 - rgbc|))).1 : ℚ) * 3600 - rgbc| ≤
        |msc - (b : ℚ) * 3600 - rgbc|) ∧
      ∀ x ∈ L, |msc - ((L.foldl (searchStep msc rgbc)
          (b, some (|msc - (b : ℚ) * 3600 - rgbc|))).1 : ℚ) * 3600 - rgbc| ≤
        |msc - (x : ℚ) * 3600 - rgbc| := by
  intro L
  induction L with
  | nil => intro b; refine ⟨rfl, Or.inl rfl, le_refl _, by intro x hx; cases hx⟩
  | cons o L ih =>
    intro b
    by_cases hlt : |msc - (o : ℚ) * 3600 - rgbc| < |msc - (b : ℚ) * 3600 - rgbc|
    · have hstep : searchStep msc rgbc (b, some (|msc - (b : ℚ) * 3600 - rgbc|)) o =
          (o, some (|msc - (o : ℚ) * 3600 - rgbc|)) := by
        simp [searchStep, hlt]
      rw [List.foldl_cons, hstep]
      obtain ⟨h1, h2, h3, h4⟩ := ih o
      refine ⟨h1, ?_, le_trans h3 (le_of_lt hlt), ?_⟩
      · rcases h2 with h | h
        · exact Or.inr (by rw [h]; exact List.mem_cons_self o L)
        · exact Or.inr (List.mem_cons_of_mem o h)
      · intro x hx
        rcases List.mem_cons.mp hx with h | h
        · rw [h]; exact h3
        · exact h4 x h
    · have hstep : searchStep msc rgbc (b, some (|msc - (b : ℚ) * 3600 - rgbc|)) o =
          (b, some (|msc - (b : ℚ) * 3600 - rgbc|)) := by
        simp [searchStep, hlt]
      rw [List.foldl_cons, hstep]
      obtain ⟨h1, h2, h3, h4⟩ := ih b
      refine ⟨h1, ?_, h3, ?_⟩
      · rcases h2 with h | h
        · exact Or.inl h
        · exact Or.inr (List.mem_cons_of_mem o h)
      · intro x hx
        rcases List.mem_cons.mp hx with h | h
        · subst h; exact le_trans h3 (not_lt.mp hlt)
        · exact h4 x h

/-- The concrete candidate-offset list. -/
theorem offsetRange_eq :
    offsetRange = [-6, -5, -4, -3, -2, -1, 0, 1, 2, 3, 4, 5, 6] := by decide

/-- Membership in the candidate-offset list is the interval `[-6, 6]`. -/
theorem mem_offsetRange (o : ℤ) : o ∈ offsetRange ↔ -6 ≤ o ∧ o ≤ 6 := by
  rw [offsetRange_eq]
  constructor
  · intro h
    fin_cases h <;> omega
  · rintro ⟨h1, h2⟩
    interval_cases o <;> simp

/-- The exhaustive search returns an offset in `[-6, 6]` minimizing the
distance between the shifted multispec center and the RGB center. -/
theorem bestOffsetSearch_spec (msc rgbc : ℚ) :
    (-6 ≤ bestOffsetSearch msc rgbc ∧ bestOffsetSearch msc rgbc ≤ 6) ∧
      ∀ x : ℤ, -6 ≤ x → x ≤ 6 →
        |msc - (bestOffsetSearch msc rgbc : ℚ) * 3600 - rgbc| ≤
          |msc - (x : ℚ) * 3600 - rgbc| := by
  have hrange : offsetRange = -6 :: [-5, -4, -3, -2, -1, 0, 1, 2, 3, 4, 5, 6] :=
    offsetRange_eq
  have hfirst : searchStep msc rgbc (0, none) (-6) =
      ((-6 : ℤ), some (|msc - ((-6 : ℤ) : ℚ) * 3600 - rgbc|)) := by
    simp [searchStep]
  have hspec := foldl_searchStep_spec msc rgbc
    [-5, -4, -3, -2, -1, 0, 1, 2, 3, 4, 5, 6] (-6)
  obtain ⟨h1, h2, h3, h4⟩ := hspec
  have hbest : bestOffsetSearch msc rgbc =
      ([-5, -4, -3, -2, -1, 0, 1, 2, 3, 4, 5, 6].foldl (searchStep msc rgbc)
        ((-6 : ℤ), some (|msc - ((-6 : ℤ) : ℚ) * 3600 - rgbc|))).1 := by
    unfold bestOffsetSearch
    rw [hrange, List.foldl_cons, hfirst]
  constructor
  · rw [hbest]
    rcases h2 with h | h
    · rw [h]; omega
    · have hmem : ([-5, -4, -3, -2, -1, 0, 1, 2, 3, 4, 5, 6].foldl (searchStep msc rgbc)
          ((-6 : ℤ), some (|msc - ((-6 : ℤ) : ℚ) * 3600 - rgbc|))).1 ∈ offsetRange := by
        rw [hrange]; exact List.mem_cons_of_mem _ h
      exact (mem_offsetRange _).mp hmem
  · intro x hx1 hx2
    rw [hbest]
    have hx : x ∈ offsetRange := (mem_offsetRange x).mpr ⟨hx1, hx2⟩
    rw [hrange] at hx
    rcases List.mem_cons.mp hx with h | h
    · subst h; exact h3
    · exact h4 x h

/-- Both branches of the offset selection return `h * 3600` for an integer
`h` in `[-6, 6]` that minimizes the center distance over that interval. -/
theorem offsetFromCenters_minimizer (msc rgbc : ℚ) :
    ∃ h : ℤ, -6 ≤ h ∧ h ≤ 6 ∧ offsetFromCenters msc rgbc = (h : ℚ) * 3600 ∧
      ∀ g : ℤ, -6 ≤ g → g ≤ 6 →
        |msc - (h : ℚ) * 3600 - rgbc| ≤ |msc - (g : ℚ) * 3600 - rgbc| := by
  unfold offsetFromCenters
  by_cases hbr : (MAX_OFFSET_HOURS : ℚ) < |(msc - rgbc) / 3600|
  · obtain ⟨⟨hb1, hb2⟩, hmin⟩ := bestOffsetSearch_spec msc rgbc
    exact ⟨bestOffsetSearch msc rgbc, hb1, hb2, by rw [if_pos hbr], hmin⟩
  · set raw : ℚ := (msc - rgbc) / 3600 with hraw
    have habs : |raw| ≤ 6 := by
      have : (MAX_OFFSET_HOURS : ℚ) = 6 := by norm_num [MAX_OFFSET_HOURS]
      rw [← this]; exact not_lt.mp hbr
    have hdist := pyRound_dist raw
    have hcast : ∀ g : ℤ, msc - (g : ℚ) * 3600 - rgbc = (raw - (g : ℚ)) * 3600 := by
      intro g; rw [hraw]; field_simp; ring
    refine ⟨pyRound raw, ?_, ?_, by rw [if_neg hbr], ?_⟩
    · by_contra hcon
      push_neg at hcon
      have : ((pyRound raw : ℤ) : ℚ) ≤ -7 := by exact_mod_cast (by omega : pyRound raw ≤ -7)
      have habs2 : |raw - (pyRound raw : ℚ)| ≤ 1 / 2 := by
        rw [abs_sub_comm] at hdist; rw [abs_sub_comm]; exact hdist
      rw [abs_le] at habs habs2
      linarith [habs.1, habs2.2]
    · by_contra hcon
      push_neg at hcon
      have : (7 : ℚ) ≤ ((pyRound raw : ℤ) : ℚ) := by exact_mod_cast (by omega : 7 ≤ pyRound raw)
      rw [abs_le] at habs hdist
      linarith [habs.2, hdist.1]
    · intro g _ _
      rw [hcast, hcast, abs_mul, abs_mul]
      have := pyRound_nearest raw g
      have h36 : (0 : ℚ) ≤ |(3600 : ℚ)| := abs_nonneg _
      exact mul_le_mul_of_nonneg_right this h36

/-- Claim C1: for every chunk in which the RGB masters (label prefix `DJI_`)
and the multispectral masters (label prefix `IMG_`) each yield a non-empty
parsed timestamp list, the time offset computed by
`remove_images_outside_rgb_times` is `h * 3600` seconds for an integer `h`
with `-6 <= h <= 6`, and this `h` minimizes
`|multispec_center - h * 3600 - rgb_center|` over all integers in `[-6, 6]`,
where each center is the midpoint of that list's minimum and maximum
timestamps; the proof covers the round-to-nearest-hour branch and the
exhaustive-search branch alike. -/
theorem claim_C1 (cams : List Camera)
    (hr : gct "DJI_" cams ≠ []) (hm : gct "IMG_" cams ≠ []) :
    ∃ h : ℤ, -6 ≤ h ∧ h ≤ 6 ∧
      computeTimeOffset (gct "DJI_" cams) (gct "IMG_" cams) = (h : ℚ) * 3600 ∧
      ∀ g : ℤ, -6 ≤ g → g ≤ 6 →
        |centerOf (gct "IMG_" cams) - (h : ℚ) * 3600 - centerOf (gct "DJI_" cams)| ≤
          |centerOf (gct "IMG_" cams) - (g : ℚ) * 3600 - centerOf (gct "DJI_" cams)| := by
  have h1 := hr
  have h2 := hm
  exact offsetFromCenters_minimizer (centerOf (gct "IMG_" cams)) (centerOf (gct "DJI_" cams))

/-- Witness for claim C1 at a concrete two-camera chunk. -/
theorem claim_C1_witness :
    (gct "DJI_" Ex.chunkA ≠ [] ∧ gct "IMG_" Ex.chunkA ≠ []) ∧
      (∃ h : ℤ, -6 ≤ h ∧ h ≤ 6 ∧
        computeTimeOffset (gct "DJI_" Ex.chunkA) (gct "IMG_" Ex.chunkA) = (h : ℚ) * 3600 ∧
        ∀ g : ℤ, -6 ≤ g → g ≤ 6 →
          |centerOf (gct "IMG_" Ex.chunkA) - (h : ℚ) * 3600 - centerOf (gct "DJI_" Ex.chunkA)| ≤
            |centerOf (gct "IMG_" Ex.chunkA) - (g : ℚ) * 3600 - centerOf (gct "DJI_" Ex.chunkA)|) :=
  ⟨⟨by decide, by decide⟩, claim_C1 Ex.chunkA (by decide) (by decide)⟩

/-- Unfolding of `removeImagesOutsideRgbTimes` on the main path. -/
theorem riort_eq (cams : List Camera)
    (hr : gct "DJI_" cams ≠ []) (hm : gct "IMG_" cams ≠ []) :
    removeImagesOutsideRgbTimes cams =
      (cams.map (fun c =>
        if msMarked (firstRgbOf cams) (lastRgbOf cams) (timeOffsetOf cams) c
        then setAlt0 c else c)).filter
        (fun c => c.isCalib ||
          ¬ ((cams.filter (msMarked (firstRgbOf cams) (lastRgbOf cams)
              (timeOffsetOf cams))).map (fun x => x.label)).contains c.label) := by
  unfold removeImagesOutsideRgbTimes
  rw [if_neg hr, if_neg hm]
  rfl

/-- Pairwise-distinct labels make the label a key. -/
theorem label_unique {cams : List Camera}
    (hdist : cams.Pairwise (fun a b => a.label ≠ b.label)) :
    ∀ a ∈ cams, ∀ b ∈ cams, a.label = b.label → a = b := by
  intro a ha b hb hab
  by_contra hne
  have hsym : Symmetric (fun a b : Camera => a.label ≠ b.label) :=
    fun x y h e => h e.symm
  exact hdist.forall hsym ha hb hne hab

/-- Claim C2, amended: the claim as stated fails when two cameras share a
label (see the counterexample); under the additional hypothesis that the
chunk's cameras carry pairwise-distinct labels it holds: after
`remove_images_outside_rgb_times` runs on a chunk with non-empty RGB and
multispectral timestamp lists, a multispectral master camera (prefix `IMG_`,
its own master, parseable `Exif/DateTimeOriginal`, non-null reference
location, not in the `Calibration images` group) remains in the chunk iff
its offset-corrected timestamp lies inside the closed RGB window, and every
camera not sharing a label with a marked non-calibration camera keeps a
camera of its label in the chunk. -/
theorem claim_C2_amended (cams : List Camera)
    (hdist : cams.Pairwise (fun a b => a.label ≠ b.label))
    (hr : gct "DJI_" cams ≠ []) (hm : gct "IMG_" cams ≠ [])
    (c : Camera) (hc : c ∈ cams)
    (hpre : pyStarts c.label "IMG_" = true)
    (hmaster : c.label = c.masterLabel)
    (d : MetaDict) (hd : c.photo.meta = some d)
    (dt : DT) (hdt : d.exifDTO = some (TSParse.ok dt))
    (hloc : c.location.isSome = true)
    (hgrp : c.isCalib = false) :
    (c ∈ removeImagesOutsideRgbTimes cams ↔
      ¬ (((DT.toSec (pmFix dt) : ℤ) : ℚ) - timeOffsetOf cams < firstRgbOf cams ∨
         lastRgbOf cams < ((DT.toSec (pmFix dt) : ℤ) : ℚ) - timeOffsetOf cams)) ∧
    ∀ c' ∈ cams,
      (∀ e ∈ cams,
        msMarked (firstRgbOf cams) (lastRgbOf cams) (timeOffsetOf cams) e = true →
        e.isCalib = true ∨ e.label ≠ c'.label) →
      ∃ c'' ∈ removeImagesOutsideRgbTimes cams, c''.label = c'.label := by
  have hres := riort_eq cams hr hm
  have hbeq : (c.label == c.masterLabel) = true := beq_iff_eq.mpr hmaster
  have hmarked_iff :
      msMarked (firstRgbOf cams) (lastRgbOf cams) (timeOffsetOf cams) c = true ↔
      (((DT.toSec (pmFix dt) : ℤ) : ℚ) - timeOffsetOf cams < firstRgbOf cams ∨
        lastRgbOf cams < ((DT.toSec (pmFix dt) : ℤ) : ℚ) - timeOffsetOf cams) := by
    simp [msMarked, hpre, hbeq, hd, hdt, hloc]
  constructor
  · constructor
    · intro hmem hout
      rw [hres] at hmem
      have hkeep := (List.mem_filter.mp hmem).2
      have hmarked : msMarked (firstRgbOf cams) (lastRgbOf cams)
          (timeOffsetOf cams) c = true := hmarked_iff.mpr hout
      have hlab : c.label ∈ (cams.filter (msMarked (firstRgbOf cams)
          (lastRgbOf cams) (timeOffsetOf cams))).map (fun x => x.label) :=
        List.mem_map.mpr ⟨c, List.mem_filter.mpr ⟨hc, hmarked⟩, rfl⟩
      rw [Bool.or_eq_true, hgrp] at hkeep
      rcases hkeep with h | h
      · exact absurd h (by simp)
      · rw [decide_eq_true_eq] at h
        exact h (List.elem_iff.mpr hlab)
    · intro hin
      have hmarked : msMarked (firstRgbOf cams) (lastRgbOf cams)
          (timeOffsetOf cams) c = false := by
        rw [← Bool.not_eq_true, hmarked_iff]
        exact hin
      rw [hres]
      refine List.mem_filter.mpr ⟨?_, ?_⟩
      · exact List.mem_map.mpr ⟨c, hc, by rw [hmarked]; rfl⟩
      · rw [Bool.or_eq_true]
        refine Or.inr ?_
        rw [decide_eq_true_eq]
        intro habs
        obtain ⟨x, hx, hxl⟩ := List.mem_map.mp (List.elem_iff.mp habs)
        obtain ⟨hxmem, hxmarked⟩ := List.mem_filter.mp hx
        have hxc : x = c := label_unique hdist x hxmem c hc hxl
        rw [hxc, hmarked] at hxmarked
        exact Bool.false_ne_true hxmarked
  · intro c' hc' hno
    by_cases hcal : c'.isCalib = true
    · refine ⟨if msMarked (firstRgbOf cams) (lastRgbOf cams) (timeOffsetOf cams) c'
          then setAlt0 c' else c', ?_, ?_⟩
      · rw [hres]
        refine List.mem_filter.mpr ⟨List.mem_map.mpr ⟨c', hc', rfl⟩, ?_⟩
        rw [Bool.or_eq_true]
        refine Or.inl ?_
        by_cases hmk : msMarked (firstRgbOf cams) (lastRgbOf cams)
            (timeOffsetOf cams) c' = true
        · rw [if_pos hmk]
          have : (setAlt0 c').groupLabel = c'.groupLabel := rfl
          unfold Camera.isCalib at hcal ⊢
          rw [this]
          exact hcal
        · rw [if_neg hmk]
          exact hcal
      · by_cases hmk : msMarked (firstRgbOf cams) (lastRgbOf cams)
            (timeOffsetOf cams) c' = true
        · rw [if_pos hmk]; rfl
        · rw [if_neg hmk]
    · have hnm : msMarked (firstRgbOf cams) (lastRgbOf cams)
          (timeOffsetOf cams) c' = false := by
        by_contra h
        rw [Bool.not_eq_false] at h
        rcases hno c' hc' h with h1 | h1
        · exact hcal h1
        · exact h1 rfl
      refine ⟨c', ?_, rfl⟩
      rw [hres]
      refine List.mem_filter.mpr ⟨List.mem_map.mpr ⟨c', hc', by rw [hnm]; rfl⟩, ?_⟩
      rw [Bool.or_eq_true]
      refine Or.inr ?_
      rw [decide_eq_true_eq]
      intro habs
      obtain ⟨x, hx, hxl⟩ := List.mem_map.mp (List.elem_iff.mp habs)
      obtain ⟨hxmem, hxmarked⟩ := List.mem_filter.mp hx
      rcases hno x hxmem hxmarked with h1 | h1
      · have hxc : x = c' := label_unique hdist x hxmem c' hc' hxl
        rw [hxc] at h1
        exact hcal h1
      · exact h1 hxl

/-- Counterexample to claim C2 as stated: in the chunk `Ex.cexC2` the camera
`Ex.imgIn` (label `IMG_1`, 14:00) satisfies every condition of the claim and
its offset-corrected timestamp lies inside the RGB window, yet it is removed,
because the other 13:00 camera with the same label was marked and deletion
goes by label. -/
theorem claim_C2_counterexample :
    Ex.imgIn ∈ Ex.cexC2 ∧
    pyStarts Ex.imgIn.label "IMG_" = true ∧
    Ex.imgIn.label = Ex.imgIn.masterLabel ∧
    Ex.imgIn.photo.meta =
      some { exifDTO := some (TSParse.ok ⟨0, 14, 0, 0⟩), xmpDTO := none } ∧
    Ex.imgIn.location.isSome = true ∧
    Ex.imgIn.isCalib = false ∧
    gct "DJI_" Ex.cexC2 ≠ [] ∧ gct "IMG_" Ex.cexC2 ≠ [] ∧
    ¬ (((DT.toSec (pmFix ⟨0, 14, 0, 0⟩) : ℤ) : ℚ) - timeOffsetOf Ex.cexC2 <
          firstRgbOf Ex.cexC2 ∨
        lastRgbOf Ex.cexC2 <
          ((DT.toSec (pmFix ⟨0, 14, 0, 0⟩) : ℤ) : ℚ) - timeOffsetOf Ex.cexC2) ∧
    Ex.imgIn ∉ removeImagesOutsideRgbTimes Ex.cexC2 := by
  have hdji : gct "DJI_" Ex.cexC2 = [43200] := by decide
  have hO : timeOffsetOf Ex.cexC2 = 7200 := by
    have himg : gct "IMG_" Ex.cexC2 = [46800, 50400] := by decide
    have c1 : centerOf [43200] = 43200 := by
      norm_num [centerOf, minD, maxD, listMin, listMax]
    have c2 : centerOf [46800, 50400] = 48600 := by
      norm_num [centerOf, minD, maxD, listMin, listMax, min_def, max_def]
    have habs : |((48600 : ℚ) - 43200) / 3600| = 3 / 2 := by
      rw [abs_of_nonneg (by norm_num)]
      norm_num
    have hfl : ⌊((48600 : ℚ) - 43200) / 3600⌋ = 1 := by norm_num
    have hfr : Int.fract (((48600 : ℚ) - 43200) / 3600) = 1 / 2 := by
      rw [Int.fract, hfl]; norm_num
    unfold timeOffsetOf computeTimeOffset
    rw [hdji, himg, c1, c2]
    simp only [offsetFromCenters]
    rw [habs, if_neg (by norm_num [MAX_OFFSET_HOURS])]
    simp only [pyRound]
    rw [hfr, hfl]
    norm_num
  have hF : firstRgbOf Ex.cexC2 = 43200 := by
    rw [firstRgbOf, hdji]; norm_num [minD, listMin]
  have hL : lastRgbOf Ex.cexC2 = 43200 := by
    rw [lastRgbOf, hdji]; norm_num [maxD, listMax]
  have hm13 : msMarked (firstRgbOf Ex.cexC2) (lastRgbOf Ex.cexC2)
      (timeOffsetOf Ex.cexC2) (Ex.cam "IMG_1" 13) = true := by
    rw [hF, hL, hO]
    have h1 : pyStarts "IMG_1" "IMG_" = true := by decide
    have h2 : (("IMG_1" : String) == "IMG_1") = true := by decide
    have h3 : DT.toSec (pmFix ⟨0, 13, 0, 0⟩) = 46800 := by decide
    simp only [msMarked, Ex.cam, h1, h2, h3, Bool.and_eq_true, Bool.or_eq_true,
      decide_eq_true_eq, Option.isSome_some]
    refine ⟨⟨trivial, trivial⟩, ?_, trivial⟩
    left
    push_cast
    norm_num
  refine ⟨by decide, by decide, by decide, by decide, by decide, by decide,
    by decide, by decide, ?_, ?_⟩
  · rw [hO, hF, hL]
    have h3 : DT.toSec (pmFix ⟨0, 14, 0, 0⟩) = 50400 := by decide
    rw [h3]
    push_cast
    norm_num
  · intro hmem
    rw [riort_eq Ex.cexC2 (by decide) (by decide)] at hmem
    have hkeep := (List.mem_filter.mp hmem).2
    rw [Bool.or_eq_true] at hkeep
    rcases hkeep with h | h
    · exact absurd h (by decide)
    · rw [decide_eq_true_eq] at h
      apply h
      apply List.elem_iff.mpr
      exact List.mem_map.mpr ⟨Ex.cam "IMG_1" 13,
        List.mem_filter.mpr ⟨by decide, hm13⟩, by decide⟩

/-- Witness for the amended claim C2 at a concrete chunk with distinct
labels. -/
theorem claim_C2_amended_witness :
    (Ex.chunkA.Pairwise (fun a b => a.label ≠ b.label) ∧
      gct "DJI_" Ex.chunkA ≠ [] ∧ gct "IMG_" Ex.chunkA ≠ [] ∧
      Ex.cam "IMG_0001" 13 ∈ Ex.chunkA ∧
      pyStarts (Ex.cam "IMG_0001" 13).label "IMG_" = true ∧
      (Ex.cam "IMG_0001" 13).label = (Ex.cam "IMG_0001" 13).masterLabel ∧
      (Ex.cam "IMG_0001" 13).photo.meta =
        some { exifDTO := some (TSParse.ok ⟨0, 13, 0, 0⟩), xmpDTO := none } ∧
      ({ exifDTO := some (TSParse.ok ⟨0, 13, 0, 0⟩), xmpDTO := none } :
          MetaDict).exifDTO = some (TSParse.ok ⟨0, 13, 0, 0⟩) ∧
      (Ex.cam "IMG_0001" 13).location.isSome = true ∧
      (Ex.cam "IMG_0001" 13).isCalib = false) ∧
    ((Ex.cam "IMG_0001" 13 ∈ removeImagesOutsideRgbTimes Ex.chunkA ↔
      ¬ (((DT.toSec (pmFix ⟨0, 13, 0, 0⟩) : ℤ) : ℚ) - timeOffsetOf Ex.chunkA <
            firstRgbOf Ex.chunkA ∨
          lastRgbOf Ex.chunkA <
            ((DT.toSec (pmFix ⟨0, 13, 0, 0⟩) : ℤ) : ℚ) - timeOffsetOf Ex.chunkA)) ∧
      ∀ c' ∈ Ex.chunkA,
        (∀ e ∈ Ex.chunkA,
          msMarked (firstRgbOf Ex.chunkA) (lastRgbOf Ex.chunkA)
            (timeOffsetOf Ex.chunkA) e = true →
          e.isCalib = true ∨ e.label ≠ c'.label) →
        ∃ c'' ∈ removeImagesOutsideRgbTimes Ex.chunkA, c''.label = c'.label) :=
  ⟨⟨by decide, by decide, by decide, by decide, by decide, by decide, by decide,
    by decide, by decide, by decide⟩,
    claim_C2_amended Ex.chunkA (by decide) (by decide) (by decide)
      (Ex.cam "IMG_0001" 13) (by decide) (by decide) (by decide)
      { exifDTO := some (TSParse.ok ⟨0, 13, 0, 0⟩), xmpDTO := none } (by decide)
      ⟨0, 13, 0, 0⟩ (by decide) (by decide) (by decide)⟩

/-- Lookup of a key whose binding in the assoc list is unique. -/
theorem lookupD_of_uniqueKey (m : List (ℤ × ℤ)) (k v : ℤ)
    (hmem : (k, v) ∈ m) (huniq : ∀ e ∈ m, e.1 = k → e = (k, v)) :
    lookupD m k = v := by
  unfold lookupD
  cases hfind : m.reverse.find? (fun p => p.1 == k) with
  | none =>
    exfalso
    have hall := List.find?_eq_none.mp hfind (k, v) (List.mem_reverse.mpr hmem)
    simp at hall
  | some e =>
    have hp := List.find?_some hfind
    have hmem2 := List.mem_of_find?_eq_some hfind
    have he : e = (k, v) :=
      huniq e (List.mem_reverse.mp hmem2) (beq_iff_eq.mp hp)
    rw [he]

/-- Pairwise-distinct layer indices make the index a key. -/
theorem sensor_idx_unique {L : List Sensor}
    (hd : L.Pairwise (fun a b => a.layerIndex ≠ b.layerIndex)) :
    ∀ a ∈ L, ∀ b ∈ L, a.layerIndex = b.layerIndex → a = b := by
  intro a ha b hb hab
  by_contra hne
  have hsym : Symmetric (fun a b : Sensor => a.layerIndex ≠ b.layerIndex) :=
    fun x y h e => h e.symm
  exact hd.forall hsym ha hb hne hab

/-- Claim C3: on a chunk whose layer-indexed sensors carry pairwise-distinct
indices and contain exactly one sensor whose label contains `Panchro`,
`configure_multispectral_camera` ends with the Panchro sensor at layer
index 10, every sensor whose original index exceeded Panchro's decremented
by one, every sensor below Panchro's index unchanged, and sensors without a
layer index untouched: the two-phase `+100` application realizes exactly
this mapping. -/
theorem claim_C3 (sensors : List Sensor)
    (hdist : (sensors.filter (fun s => s.layerIndex.isSome)).Pairwise
      (fun a b => a.layerIndex ≠ b.layerIndex))
    (pan : Sensor) (hpanmem : pan ∈ sensors)
    (hpanl : containsSub pan.label "Panchro" = true)
    (huniq : ∀ s ∈ sensors, s.layerIndex.isSome = true →
      containsSub s.label "Panchro" = true → s = pan)
    (p : ℤ) (hp : pan.layerIndex = some p) :
    configureMultispectralCamera sensors = sensors.map (fun s =>
      match s.layerIndex with
      | none => s
      | some i =>
        { s with layerIndex := some (if containsSub s.label "Panchro" then 10
            else if p < i then i - 1 else i) }) := by
  have hpansome : pan.layerIndex.isSome = true := by rw [hp]; rfl
  have hpanms : pan ∈ sensors.filter (fun s => s.layerIndex.isSome) :=
    List.mem_filter.mpr ⟨hpanmem, hpansome⟩
  have hempty : (sensors.filter (fun s => s.layerIndex.isSome)).isEmpty = false := by
    rw [List.isEmpty_eq_false]
    exact List.ne_nil_of_mem hpanms
  have hfind : (sensors.filter (fun s => s.layerIndex.isSome)).find?
      (fun s => containsSub s.label "Panchro") = some pan := by
    cases hf : (sensors.filter (fun s => s.layerIndex.isSome)).find?
        (fun s => containsSub s.label "Panchro") with
    | none =>
      exfalso
      have hall := List.find?_eq_none.mp hf pan hpanms
      rw [hpanl] at hall
      exact hall rfl
    | some q =>
      have hq1 := List.find?_some hf
      have hq2 := List.mem_of_find?_eq_some hf
      obtain ⟨hq3, hq4⟩ := List.mem_filter.mp hq2
      rw [huniq q hq3 hq4 hq1]
  unfold configureMultispectralCamera
  simp only [hempty, Bool.false_eq_true, if_false, hfind, hp, Option.getD_some]
  rw [List.map_map]
  apply List.map_congr_left
  intro s hs
  cases hsi : s.layerIndex with
  | none => simp [Function.comp, hsi]
  | some i =>
    have hsmem : s ∈ sensors.filter (fun s => s.layerIndex.isSome) :=
      List.mem_filter.mpr ⟨hs, by rw [hsi]; rfl⟩
    have hentry : (i, if containsSub s.label "Panchro" then 10
        else if p < i then i - 1 else i) ∈
        panchroMapping (sensors.filter (fun s => s.layerIndex.isSome)) p :=
      List.mem_filterMap.mpr ⟨s, hsmem, by rw [hsi]; rfl⟩
    have huniqk : ∀ e ∈ panchroMapping (sensors.filter
        (fun s => s.layerIndex.isSome)) p, e.1 = i →
        e = (i, if containsSub s.label "Panchro" then 10
          else if p < i then i - 1 else i) := by
      intro e he hek
      obtain ⟨t, ht, hft⟩ := List.mem_filterMap.mp he
      cases hti : t.layerIndex with
      | none => rw [hti] at hft; cases hft
      | some j =>
        rw [hti] at hft
        have he2 : e = (j, if containsSub t.label "Panchro" then 10
            else if p < j then j - 1 else j) := by
          cases hft
          rfl
        have hji : j = i := by rw [he2] at hek; exact hek
        have hts : t = s := by
          apply sensor_idx_unique hdist t ht s hsmem
          rw [hti, hsi, hji]
        rw [he2, hji, hts]
    have hlook := lookupD_of_uniqueKey _ i _ hentry huniqk
    simp only [Function.comp, hsi, hlook]
    have harith : (if containsSub s.label "Panchro" then (10 : ℤ)
        else if p < i then i - 1 else i) + 100 - 100 =
        (if containsSub s.label "Panchro" then (10 : ℤ)
        else if p < i then i - 1 else i) := by omega
    rw [harith]

/-- Witness for claim C3 at a concrete five-band sensor bank. -/
theorem claim_C3_witness :
    ((Ex.sensorBank.filter (fun s => s.layerIndex.isSome)).Pairwise
        (fun a b => a.layerIndex ≠ b.layerIndex) ∧
      Ex.panSensor ∈ Ex.sensorBank ∧
      containsSub Ex.panSensor.label "Panchro" = true ∧
      (∀ s ∈ Ex.sensorBank, s.layerIndex.isSome = true →
        containsSub s.label "Panchro" = true → s = Ex.panSensor) ∧
      Ex.panSensor.layerIndex = some 2) ∧
    configureMultispectralCamera Ex.sensorBank = Ex.sensorBank.map (fun s =>
      match s.layerIndex with
      | none => s
      | some i =>
        { s with layerIndex := some (if containsSub s.label "Panchro" then 10
            else if (2 : ℤ) < i then i - 1 else i) }) :=
  ⟨⟨by decide, by decide, by decide, by decide, by decide⟩,
    claim_C3 Ex.sensorBank (by decide) Ex.panSensor (by decide) (by decide)
      (by decide) 2 (by decide)⟩

/-- Per-camera factoring of timestamp collection through the raw parsed
datetime. -/
theorem gctF_eq_parsed (pre : String) (c : Camera) :
    gctF pre c = (parsedDT pre c).map (fun dt => DT.toSec (pmFix dt)) := by
  unfold gctF parsedDT
  split_ifs <;> try rfl
  rcases c with ⟨lab, mas, ⟨meta⟩, loc, grp, en⟩
  cases meta with
  | none => rfl
  | some d =>
    rcases d with ⟨exif, xmp⟩
    cases exif with
    | none => rfl
    | some t => cases t <;> rfl

/-- Claim C9: in `remove_images_outside_rgb_times`, every parsed capture
timestamp — RGB and multispectral alike — has 12 hours added when its hour
field is below 12, before any window bound, center, offset, or removal
comparison: the collected timestamp lists are the `timestamp()` images of
the PM-fixed datetimes, every PM-fixed datetime has hour at least 12, the
fix adds exactly 12 hours to a morning time (09:00 is compared as 21:00 of
the same day), and the removal marking also compares the PM-fixed
`timestamp()` value. -/
theorem claim_C9 :
    (∀ (pre : String) (cams : List Camera),
      gct pre cams =
        (cams.filterMap (parsedDT pre)).map (fun dt => DT.toSec (pmFix dt))) ∧
    (∀ dt : DT, 12 ≤ (pmFix dt).hour) ∧
    (∀ dt : DT, dt.hour < 12 →
      pmFix dt = ⟨dt.day, dt.hour + 12, dt.minute, dt.second⟩) ∧
    (∀ d : ℤ, pmFix ⟨d, 9, 0, 0⟩ = ⟨d, 21, 0, 0⟩) ∧
    (∀ (f l o : ℚ) (c : Camera) (d : MetaDict) (dt : DT),
      c.photo.meta = some d → d.exifDTO = some (TSParse.ok dt) →
      msMarked f l o c =
        (pyStarts c.label "IMG_" && c.label == c.masterLabel &&
          ((decide (((DT.toSec (pmFix dt) : ℤ) : ℚ) - o < f) ||
            decide (l < ((DT.toSec (pmFix dt) : ℤ) : ℚ) - o)) &&
            c.location.isSome))) := by
  refine ⟨?_, ?_, ?_, ?_, ?_⟩
  · intro pre cams
    rw [gct, List.map_filterMap]
    apply List.filterMap_congr
    intro c hc
    rw [gctF_eq_parsed]
  · intro dt
    unfold pmFix
    split_ifs with h
    · show 12 ≤ dt.hour + 12
      omega
    · omega
  · intro dt h
    unfold pmFix
    rw [if_pos h]
  · intro d
    rfl
  · intro f l o c d dt hd hdt
    unfold msMarked
    rw [hd]
    simp only [hdt]

/-- Witness for claim C9: the morning-time fix and the marking equation at
concrete inputs. -/
theorem claim_C9_witness :
    pmFix ⟨0, 9, 0, 0⟩ = ⟨0, 21, 0, 0⟩ ∧
    msMarked 1 2 3 (Ex.cam "IMG_0001" 13) =
      (pyStarts (Ex.cam "IMG_0001" 13).label "IMG_" &&
        (Ex.cam "IMG_0001" 13).label == (Ex.cam "IMG_0001" 13).masterLabel &&
        ((decide (((DT.toSec (pmFix ⟨0, 13, 0, 0⟩) : ℤ) : ℚ) - 3 < 1) ||
          decide ((2 : ℚ) < ((DT.toSec (pmFix ⟨0, 13, 0, 0⟩) : ℤ) : ℚ) - 3)) &&
          (Ex.cam "IMG_0001" 13).location.isSome)) :=
  ⟨claim_C9.2.2.1 ⟨0, 9, 0, 0⟩ (by decide),
    claim_C9.2.2.2.2 1 2 3 (Ex.cam "IMG_0001" 13)
      { exifDTO := some (TSParse.ok ⟨0, 13, 0, 0⟩), xmpDTO := none }
      ⟨0, 13, 0, 0⟩ (by decide) (by decide)⟩

/-- The fold computing Python `min` returns a lower bound found in the
initial value or the list. -/
theorem foldl_min_spec :
    ∀ (xs : List ℤ) (a : ℤ),
      (xs.foldl min a = a ∨ xs.foldl min a ∈ xs) ∧ xs.foldl min a ≤ a ∧
        ∀ x ∈ xs, xs.foldl min a ≤ x := by
  intro xs
  induction xs with
  | nil => intro a; exact ⟨Or.inl rfl, le_refl _, by intro x hx; cases hx⟩
  | cons x xs ih =>
    intro a
    obtain ⟨h1, h2, h3⟩ := ih (min a x)
    rw [List.foldl_cons]
    refine ⟨?_, le_trans h2 (min_le_left a x), ?_⟩
    · rcases h1 with h | h
      · rcases min_choice a x with hm | hm
        · exact Or.inl (by rw [h, hm])
        · exact Or.inr (by rw [h, hm]; exact List.mem_cons_self x xs)
      · exact Or.inr (List.mem_cons_of_mem x h)
    · intro y hy
      rcases List.mem_cons.mp hy with h | h
      · rw [h]; exact le_trans h2 (min_le_right a x)
      · exact h3 y h

/-- The fold computing Python `max` returns an upper bound found in the
initial value or the list. -/
theorem foldl_max_spec :
    ∀ (xs : List ℤ) (a : ℤ),
      (xs.foldl max a = a ∨ xs.foldl max a ∈ xs) ∧ a ≤ xs.foldl max a ∧
        ∀ x ∈ xs, x ≤ xs.foldl max a := by
  intro xs
  induction xs with
  | nil => intro a; exact ⟨Or.inl rfl, le_refl _, by intro x hx; cases hx⟩
  | cons x xs ih =>
    intro a
    obtain ⟨h1, h2, h3⟩ := ih (max a x)
    rw [List.foldl_cons]
    refine ⟨?_, le_trans (le_max_left a x) h2, ?_⟩
    · rcases h1 with h | h
      · rcases max_choice a x with hm | hm
        · exact Or.inl (by rw [h, hm])
        · exact Or.inr (by rw [h, hm]; exact List.mem_cons_self x xs)
      · exact Or.inr (List.mem_cons_of_mem x h)
    · intro y hy
      rcases List.mem_cons.mp hy with h | h
      · rw [h]; exact le_trans (le_max_right a x) h2
      · exact h3 y h

/-- `listMin` returns a member that bounds the list from below. -/
theorem listMin_spec (l : List ℤ) (m : ℤ) (h : listMin l = some m) :
    m ∈ l ∧ ∀ x ∈ l, m ≤ x := by
  cases l with
  | nil => cases h
  | cons x xs =>
    rw [listMin, Option.some_inj] at h
    obtain ⟨h1, h2, h3⟩ := foldl_min_spec xs x
    subst h
    refine ⟨?_, ?_⟩
    · rcases h1 with h | h
      · rw [h]; exact List.mem_cons_self x xs
      · exact List.mem_cons_of_mem x h
    · intro y hy
      rcases List.mem_cons.mp hy with h | h
      · rw [h]; exact h2
      · exact h3 y h

/-- `listMax` returns a member that bounds the list from above. -/
theorem listMax_spec (l : List ℤ) (m : ℤ) (h : listMax l = some m) :
    m ∈ l ∧ ∀ x ∈ l, x ≤ m := by
  cases l with
  | nil => cases h
  | cons x xs =>
    rw [listMax, Option.some_inj] at h
    obtain ⟨h1, h2, h3⟩ := foldl_max_spec xs x
    subst h
    refine ⟨?_, ?_⟩
    · rcases h1 with h | h
      · rw [h]; exact List.mem_cons_self x xs
      · exact List.mem_cons_of_mem x h
    · intro y hy
      rcases List.mem_cons.mp hy with h | h
      · rw [h]; exact h2
      · exact h3 y h

/-- The minimum of a list only depends on the list up to permutation. -/
theorem listMin_perm {l l' : List ℤ} (h : l.Perm l') : listMin l = listMin l' := by
  cases l with
  | nil =>
    have h2 : l' = [] := List.Perm.eq_nil h.symm
    rw [h2]
  | cons x xs =>
    cases l' with
    | nil => exact absurd (List.Perm.eq_nil h) (by simp)
    | cons y ys =>
      obtain ⟨hm1, hm2⟩ := listMin_spec (x :: xs) (xs.foldl min x) rfl
      obtain ⟨hn1, hn2⟩ := listMin_spec (y :: ys) (ys.foldl min y) rfl
      have hle1 : xs.foldl min x ≤ ys.foldl min y := hm2 _ (h.mem_iff.mpr hn1)
      have hle2 : ys.foldl min y ≤ xs.foldl min x := hn2 _ (h.mem_iff.mp hm1)
      show some (xs.foldl min x) = some (ys.foldl min y)
      exact congrArg some (le_antisymm hle1 hle2)

/-- The maximum of a list only depends on the list up to permutation. -/
theorem listMax_perm {l l' : List ℤ} (h : l.Perm l') : listMax l = listMax l' := by
  cases l with
  | nil =>
    have h2 : l' = [] := List.Perm.eq_nil h.symm
    rw [h2]
  | cons x xs =>
    cases l' with
    | nil => exact absurd (List.Perm.eq_nil h) (by simp)
    | cons y ys =>
      obtain ⟨hm1, hm2⟩ := listMax_spec (x :: xs) (xs.foldl max x) rfl
      obtain ⟨hn1, hn2⟩ := listMax_spec (y :: ys) (ys.foldl max y) rfl
      have hle1 : xs.foldl max x ≤ ys.foldl max y := hn2 _ (h.mem_iff.mp hm1)
      have hle2 : ys.foldl max y ≤ xs.foldl max x := hm2 _ (h.mem_iff.mpr hn1)
      show some (xs.foldl max x) = some (ys.foldl max y)
      exact congrArg some (le_antisymm hle1 hle2)

/-- Timestamp collection factors through the projected camera fields. -/
theorem gct_eq_projMap (pre : String) (cams : List Camera) :
    gct pre cams = (cams.map proj).filterMap (gctP pre) := by
  rw [gct, List.filterMap_map]
  rfl

/-- The marked labels factor through the projected camera fields. -/
theorem delNames_eq_projMap (f l o : ℚ) (cams : List Camera) :
    (cams.filter (msMarked f l o)).map (fun c => c.label) =
      (cams.map proj).filterMap
        (fun t => if msMarkedP f l o t then some t.1 else none) := by
  induction cams with
  | nil => rfl
  | cons c cams ih =>
    have hcong : msMarked f l o c = msMarkedP f l o (proj c) := rfl
    have hlab : (proj c).1 = c.label := rfl
    by_cases hm : msMarked f l o c = true
    · have hP : msMarkedP f l o (proj c) = true := by rw [← hcong]; exact hm
      simp [hm, hP, ih, hlab]
    · have hm' : msMarked f l o c = false := Bool.eq_false_iff.mpr hm
      have hP : msMarkedP f l o (proj c) = false := by rw [← hcong]; exact hm'
      simp [hm', hP, ih]

/-- Claim C8: the hour offset and the set of labels marked for deletion by
`remove_images_outside_rgb_times` are invariant under any permutation of the
chunk's cameras: they depend only on the multiset of (label, master label,
timestamp metadata, reference location) tuples. -/
theorem claim_C8 (cams cams' : List Camera)
    (hperm : (cams.map proj).Perm (cams'.map proj)) :
    timeOffsetOf cams = timeOffsetOf cams' ∧
      ∀ lab : String, lab ∈ delNamesOf cams ↔ lab ∈ delNamesOf cams' := by
  have hg : ∀ pre, (gct pre cams).Perm (gct pre cams') := by
    intro pre
    rw [gct_eq_projMap, gct_eq_projMap]
    exact hperm.filterMap _
  have hmin : ∀ pre, listMin (gct pre cams) = listMin (gct pre cams') :=
    fun pre => listMin_perm (hg pre)
  have hmax : ∀ pre, listMax (gct pre cams) = listMax (gct pre cams') :=
    fun pre => listMax_perm (hg pre)
  have hcen : ∀ pre, centerOf (gct pre cams) = centerOf (gct pre cams') := by
    intro pre
    unfold centerOf minD maxD
    rw [hmin pre, hmax pre]
  have hoff : timeOffsetOf cams = timeOffsetOf cams' := by
    unfold timeOffsetOf computeTimeOffset
    rw [hcen "DJI_", hcen "IMG_"]
  have hfr : firstRgbOf cams = firstRgbOf cams' := by
    unfold firstRgbOf minD
    rw [hmin "DJI_"]
  have hlr : lastRgbOf cams = lastRgbOf cams' := by
    unfold lastRgbOf maxD
    rw [hmax "DJI_"]
  have hstruct : ∀ cs : List Camera, delNamesOf cs =
      (cs.map proj).filterMap (fun t =>
        if msMarkedP (firstRgbOf cs) (lastRgbOf cs) (timeOffsetOf cs) t
        then some t.1 else none) := by
    intro cs
    rw [delNamesOf]
    exact delNames_eq_projMap _ _ _ cs
  refine ⟨hoff, ?_⟩
  intro lab
  rw [hstruct cams, hstruct cams', hfr, hlr, hoff]
  exact (hperm.filterMap _).mem_iff

/-- Witness for claim C8 at a concrete chunk and its reversal. -/
theorem claim_C8_witness :
    (Ex.chunkA.map proj).Perm (Ex.chunkArev.map proj) ∧
      (timeOffsetOf Ex.chunkA = timeOffsetOf Ex.chunkArev ∧
        ∀ lab : String, lab ∈ delNamesOf Ex.chunkA ↔ lab ∈ delNamesOf Ex.chunkArev) :=
  ⟨List.Perm.swap _ _ _, claim_C8 Ex.chunkA Ex.chunkArev (List.Perm.swap _ _ _)⟩

/-- Claim C10: cameras in a group labeled `Calibration images` are never
removed from any chunk, neither by `remove_images_outside_rgb_times` (whose
deletion loop skips them even when their label was marked — at most their
altitude is zeroed) nor by either half of `camera_filtering`, which excludes
them from the candidate-removal sets. -/
theorem claim_C10 (cams : List Camera) (c : Camera) (hc : c ∈ cams)
    (hcal : c.isCalib = true)
    (rgb ms : List Camera) (hr : c ∈ rgb) (hm : c ∈ ms) :
    (c ∈ removeImagesOutsideRgbTimes cams ∨
      setAlt0 c ∈ removeImagesOutsideRgbTimes cams) ∧
    c ∈ cameraFilteringRgb rgb ∧ c ∈ cameraFilteringMs ms := by
  refine ⟨?_, ?_, ?_⟩
  · by_cases hrgb : gct "DJI_" cams = []
    · left
      unfold removeImagesOutsideRgbTimes
      rw [if_pos hrgb]
      exact hc
    · by_cases hms : gct "IMG_" cams = []
      · left
        unfold removeImagesOutsideRgbTimes
        rw [if_neg hrgb, if_pos hms]
        exact hc
      · have hres := riort_eq cams hrgb hms
        by_cases hmk : msMarked (firstRgbOf cams) (lastRgbOf cams)
            (timeOffsetOf cams) c = true
        · right
          rw [hres]
          refine List.mem_filter.mpr
            ⟨List.mem_map.mpr ⟨c, hc, by rw [if_pos hmk]⟩, ?_⟩
          have h2 : (setAlt0 c).isCalib = true := by
            rw [show (setAlt0 c).isCalib = c.isCalib from rfl]
            exact hcal
          rw [Bool.or_eq_true]
          exact Or.inl h2
        · left
          rw [hres]
          refine List.mem_filter.mpr
            ⟨List.mem_map.mpr ⟨c, hc, by rw [if_neg hmk]⟩, ?_⟩
          rw [Bool.or_eq_true]
          exact Or.inl hcal
  · refine List.mem_filter.mpr ⟨hr, ?_⟩
    simp [hcal]
  · refine List.mem_filter.mpr ⟨hm, ?_⟩
    simp [hcal]

/-- Witness for claim C10 at a chunk containing a calibration camera. -/
theorem claim_C10_witness :
    (Ex.calibCam ∈ Ex.chunkC ∧ Ex.calibCam.isCalib = true) ∧
    ((Ex.calibCam ∈ removeImagesOutsideRgbTimes Ex.chunkC ∨
        setAlt0 Ex.calibCam ∈ removeImagesOutsideRgbTimes Ex.chunkC) ∧
      Ex.calibCam ∈ cameraFilteringRgb Ex.chunkC ∧
      Ex.calibCam ∈ cameraFilteringMs Ex.chunkC) :=
  ⟨⟨by decide, by decide⟩,
    claim_C10 Ex.chunkC Ex.calibCam (by decide) (by decide) Ex.chunkC Ex.chunkC
      (by decide) (by decide)⟩

end CamOps

namespace ImgUtils

/-- A camera with an extracted timestamp is enabled. -/
theorem extractTS_enabled (c : Camera) (t : ℤ) (h : extractTS c = some t) :
    c.enabled = true := by
  by_contra hen
  have hne : ¬ (c.enabled = true) := hen
  unfold extractTS at h
  rw [if_pos hne] at h
  cases h

/-- Claim C6: with at least one enabled `DJI_` camera and one enabled `IMG_`
camera with parseable `DateTimeOriginal`, `filter_images_by_timestamp`
removes exactly the enabled `IMG_` cameras with parseable timestamps lying
strictly outside the buffered RGB window; `DJI_` cameras, disabled cameras
and cameras without a parseable timestamp all stay; with either timestamp
list empty the chunk is unchanged. -/
theorem claim_C6 (cams : List Camera) (buf : ℤ) :
    (rgbTimes cams ≠ [] → msTimes cams ≠ [] →
      ∀ c ∈ cams,
        (c ∉ filterImagesByTimestamp cams buf ↔
          (c.enabled = true ∧ pyStarts c.label "IMG_" = true ∧
            ∃ t, extractTS c = some t ∧
              (t < minD (rgbTimes cams) - buf ∨ maxD (rgbTimes cams) + buf < t)))) ∧
    ((rgbTimes cams = [] ∨ msTimes cams = []) →
      filterImagesByTimestamp cams buf = cams) := by
  constructor
  · intro hr hm c hc
    have hres : filterImagesByTimestamp cams buf =
        cams.filter (fun c =>
          ¬ fibtRemovePred (minD (rgbTimes cams)) (maxD (rgbTimes cams)) buf c) := by
      unfold filterImagesByTimestamp
      rw [if_neg hr, if_neg hm]
    rw [hres]
    have hiff : c ∉ cams.filter (fun c =>
        ¬ fibtRemovePred (minD (rgbTimes cams)) (maxD (rgbTimes cams)) buf c) ↔
        fibtRemovePred (minD (rgbTimes cams)) (maxD (rgbTimes cams)) buf c = true := by
      rw [List.mem_filter]
      simp [hc]
    rw [hiff]
    unfold fibtRemovePred
    cases he : extractTS c with
    | none =>
      simp [he]
    | some t =>
      simp [he, extractTS_enabled c t he]
  · intro hemp
    unfold filterImagesByTimestamp
    rcases hemp with h | h
    · rw [if_pos h]
    · by_cases hr : rgbTimes cams = []
      · rw [if_pos hr]
      · rw [if_neg hr, if_pos h]

/-- Witness for claim C6 at a concrete two-camera chunk with a 30 second
buffer. -/
theorem claim_C6_witness :
    (rgbTimes Ex.chunkA ≠ [] ∧ msTimes Ex.chunkA ≠ [] ∧
      Ex.cam "IMG_0001" 13 ∈ Ex.chunkA) ∧
    (Ex.cam "IMG_0001" 13 ∉ filterImagesByTimestamp Ex.chunkA 30 ↔
      ((Ex.cam "IMG_0001" 13).enabled = true ∧
        pyStarts (Ex.cam "IMG_0001" 13).label "IMG_" = true ∧
        ∃ t, extractTS (Ex.cam "IMG_0001" 13) = some t ∧
          (t < minD (rgbTimes Ex.chunkA) - 30 ∨
            maxD (rgbTimes Ex.chunkA) + 30 < t))) :=
  ⟨⟨by decide, by decide, by decide⟩,
    (claim_C6 Ex.chunkA 30).1 (by decide) (by decide)
      (Ex.cam "IMG_0001" 13) (by decide)⟩

/-- Removal by `chunk.remove(ms_outside_area)`: a qualifying multispectral
camera is gone from the result iff its position fails the test. -/
theorem removeOutside_not_mem_iff (cams : List Camera)
    (test : (ℚ × ℚ × ℚ) → Bool) (c : Camera) (hc : c ∈ cams)
    (p : ℚ × ℚ × ℚ) (hloc : c.location = some p) (hen : c.enabled = true)
    (hpre : pyStarts c.label "IMG_" = true) :
    (c ∉ removeOutside cams test ↔ test p = false) := by
  have hms : msPred c = true := by simp [msPred, hen, hpre, hloc]
  have hout : locOutside test c = decide (¬ test p = true) := by
    simp [locOutside, hloc]
  unfold removeOutside
  rw [List.mem_filter]
  simp only [hc, true_and, hms, hout]
  cases ht : test p <;> simp

/-- The removed cameras and the kept cameras partition the chunk. -/
theorem remove_count (cams : List Camera) (test : (ℚ × ℚ × ℚ) → Bool) :
    (msOutsideList cams test).length + (removeOutside cams test).length =
      cams.length := by
  have hpart := List.length_eq_length_filter_add
    (l := cams) (fun c => msPred c && locOutside test c)
  have h1 : msOutsideList cams test =
      cams.filter (fun c => msPred c && locOutside test c) := by
    unfold msOutsideList
    rw [List.filter_filter]
    apply List.filter_congr
    intro c _
    cases hm : msPred c <;> cases hl : locOutside test c <;> simp [hm, hl]
  have h2 : removeOutside cams test =
      cams.filter (fun c => !(msPred c && locOutside test c)) := by
    unfold removeOutside
    apply List.filter_congr
    intro c _
    cases h : (msPred c && locOutside test c) <;> simp [h]
  rw [h1, h2]
  omega

/-- The variance of a rational list is nonnegative. -/
theorem varQ_nonneg (l : List ℚ) : 0 ≤ varQ l := by
  unfold varQ
  apply div_nonneg
  · apply List.sum_nonneg
    intro x hx
    obtain ⟨y, _, hy⟩ := List.mem_map.mp hx
    rw [← hy]
    exact sq_nonneg _
  · exact Nat.cast_nonneg _

/-- The squared altitude test `(z - m)^2 <= 4*v` fails exactly when `z` lies
strictly outside the real interval `[m - 2*sqrt v, m + 2*sqrt v]`. -/
theorem altIn_false_iff (m v z : ℚ) (hv : 0 ≤ v) :
    altIn m v z = false ↔
      ((z : ℝ) < (m : ℝ) - 2 * Real.sqrt (v : ℝ) ∨
        (m : ℝ) + 2 * Real.sqrt (v : ℝ) < (z : ℝ)) := by
  have hvr : (0 : ℝ) ≤ (v : ℝ) := by exact_mod_cast hv
  have hs : (0 : ℝ) ≤ Real.sqrt (v : ℝ) := Real.sqrt_nonneg _
  have h4 : (4 : ℝ) * (v : ℝ) = (2 * Real.sqrt (v : ℝ)) ^ 2 := by
    rw [mul_pow, Real.sq_sqrt hvr]
    ring
  have hcast : ((z - m) ^ 2 ≤ 4 * v) ↔
      (((z : ℝ) - (m : ℝ)) ^ 2 ≤ 4 * (v : ℝ)) := by
    constructor
    · intro h; exact_mod_cast h
    · intro h; exact_mod_cast h
  unfold altIn
  rw [decide_eq_false_iff_not, hcast, h4]
  constructor
  · intro h
    by_contra hcon
    push_neg at hcon
    exact h (sq_le_sq' (by linarith [hcon.1]) (by linarith [hcon.2]))
  · intro h hsq
    obtain ⟨h1, h2⟩ := abs_le_of_sq_le_sq' hsq (by linarith)
    rcases h with h | h <;> linarith

/-- Claim C4: when the fraction of multispectral cameras inside the expanded
box is at least `keep_ratio`, an enabled located `IMG_` camera is removed by
`filter_multispec_by_flight_pattern` iff its position falls outside the box
built from the per-axis 5th/95th percentiles of the enabled RGB positions
widened by `spatial_threshold` times each axis extent, and the function
returns the number of cameras removed. -/
theorem claim_C4 (cams : List Camera) (st kf : ℚ)
    (hrgb : cams.filter rgbPred ≠ []) (hms : cams.filter msPred ≠ [])
    (hfrac : kf ≤ inAreaFracOf cams st)
    (c : Camera) (hc : c ∈ cams) (p : ℚ × ℚ × ℚ) (hloc : c.location = some p)
    (hen : c.enabled = true) (hpre : pyStarts c.label "IMG_" = true) :
    (c ∉ (fmfp cams st kf).1 ↔
      inBox (boxOf ((cams.filter rgbPred).filterMap (fun c => c.location)) st)
        p = false) ∧
    (fmfp cams st kf).2 = cams.length - (fmfp cams st kf).1.length := by
  have hbranch : fmfp cams st kf =
      (removeOutside cams
        (inBox (boxOf ((cams.filter rgbPred).filterMap (fun c => c.location)) st)),
       (msOutsideList cams
        (inBox (boxOf ((cams.filter rgbPred).filterMap (fun c => c.location)) st))).length) := by
    unfold fmfp
    rw [if_neg hrgb, if_neg hms, if_neg (not_lt.mpr hfrac)]
  rw [hbranch]
  dsimp only
  refine ⟨removeOutside_not_mem_iff cams _ c hc p hloc hen hpre, ?_⟩
  have := remove_count cams
    (inBox (boxOf ((cams.filter rgbPred).filterMap (fun c => c.location)) st))
  omega

/-- Claim C5: `filter_multispec_by_flight_pattern` takes the altitude-only
fallback exactly when the in-box fraction is below `keep_ratio`; there an
enabled located `IMG_` camera is removed iff its altitude lies strictly
outside mean plus or minus two standard deviations of the enabled RGB
altitudes, the spatial box playing no role, and the function returns the
number of cameras removed. -/
theorem claim_C5 (cams : List Camera) (st kf : ℚ)
    (hrgb : cams.filter rgbPred ≠ []) (hms : cams.filter msPred ≠ [])
    (hfrac : inAreaFracOf cams st < kf)
    (c : Camera) (hc : c ∈ cams) (p : ℚ × ℚ × ℚ) (hloc : c.location = some p)
    (hen : c.enabled = true) (hpre : pyStarts c.label "IMG_" = true) :
    (c ∉ (fmfp cams st kf).1 ↔
      ((p.2.2 : ℝ) <
          ((meanQ (((cams.filter rgbPred).filterMap (fun c => c.location)).map
            (fun q => q.2.2)) : ℚ) : ℝ) -
            2 * Real.sqrt ((varQ (((cams.filter rgbPred).filterMap
              (fun c => c.location)).map (fun q => q.2.2)) : ℚ) : ℝ) ∨
        ((meanQ (((cams.filter rgbPred).filterMap (fun c => c.location)).map
            (fun q => q.2.2)) : ℚ) : ℝ) +
            2 * Real.sqrt ((varQ (((cams.filter rgbPred).filterMap
              (fun c => c.location)).map (fun q => q.2.2)) : ℚ) : ℝ) <
          (p.2.2 : ℝ))) ∧
    (fmfp cams st kf).2 = cams.length - (fmfp cams st kf).1.length := by
  have hbranch : fmfp cams st kf =
      (removeOutside cams (fun q =>
        altIn (meanQ (((cams.filter rgbPred).filterMap (fun c => c.location)).map
            (fun q => q.2.2)))
          (varQ (((cams.filter rgbPred).filterMap (fun c => c.location)).map
            (fun q => q.2.2))) q.2.2),
       (msOutsideList cams (fun q =>
        altIn (meanQ (((cams.filter rgbPred).filterMap (fun c => c.location)).map
            (fun q => q.2.2)))
          (varQ (((cams.filter rgbPred).filterMap (fun c => c.location)).map
            (fun q => q.2.2))) q.2.2)).length) := by
    unfold fmfp
    rw [if_neg hrgb, if_neg hms, if_pos hfrac]
  rw [hbranch]
  dsimp only
  constructor
  · rw [removeOutside_not_mem_iff cams _ c hc p hloc hen hpre]
    exact altIn_false_iff _ _ _ (varQ_nonneg _)
  · have := remove_count cams (fun q =>
      altIn (meanQ (((cams.filter rgbPred).filterMap (fun c => c.location)).map
          (fun q => q.2.2)))
        (varQ (((cams.filter rgbPred).filterMap (fun c => c.location)).map
          (fun q => q.2.2))) q.2.2)
    omega

/-- The in-area fraction is a ratio of a filtered length to the full length,
hence nonnegative. -/
theorem inAreaFrac_nonneg (cams : List Camera) (st : ℚ) :
    0 ≤ inAreaFracOf cams st := by
  unfold inAreaFracOf
  exact div_nonneg (Nat.cast_nonneg _) (Nat.cast_nonneg _)

/-- The in-area fraction is a ratio of a filtered length to the full length,
hence below two. -/
theorem inAreaFrac_lt_two (cams : List Camera) (st : ℚ) :
    inAreaFracOf cams st < 2 := by
  have key : ∀ a b : ℕ, a ≤ b → ((a : ℚ) / (b : ℚ)) < 2 := by
    intro a b hab
    rcases Nat.eq_zero_or_pos b with h | h
    · have ha : a = 0 := by omega
      subst h
      subst ha
      norm_num
    · have hb : (0 : ℚ) < (b : ℚ) := by exact_mod_cast h
      have hab2 : (a : ℚ) ≤ (b : ℚ) := by exact_mod_cast hab
      calc (a : ℚ) / (b : ℚ) ≤ 1 := by rw [div_le_one hb]; linarith
        _ < 2 := by norm_num
  unfold inAreaFracOf
  exact key _ _ (List.length_filter_le _ _)

/-- Witness for claim C4 with `keep_ratio = 0` at a three-camera chunk. -/
theorem claim_C4_witness :
    (Ex.fmfpIn.filter rgbPred ≠ [] ∧ Ex.fmfpIn.filter msPred ≠ [] ∧
      (0 : ℚ) ≤ inAreaFracOf Ex.fmfpIn 0 ∧
      Ex.locCam "IMG_A" 50 50 50 ∈ Ex.fmfpIn ∧
      (Ex.locCam "IMG_A" 50 50 50).location = some (50, 50, 50) ∧
      (Ex.locCam "IMG_A" 50 50 50).enabled = true ∧
      pyStarts (Ex.locCam "IMG_A" 50 50 50).label "IMG_" = true) ∧
    ((Ex.locCam "IMG_A" 50 50 50 ∉ (fmfp Ex.fmfpIn 0 0).1 ↔
        inBox (boxOf ((Ex.fmfpIn.filter rgbPred).filterMap (fun c => c.location)) 0)
          (50, 50, 50) = false) ∧
      (fmfp Ex.fmfpIn 0 0).2 = Ex.fmfpIn.length - (fmfp Ex.fmfpIn 0 0).1.length) :=
  ⟨⟨by decide, by decide, inAreaFrac_nonneg Ex.fmfpIn 0, by decide, by decide,
    by decide, by decide⟩,
    claim_C4 Ex.fmfpIn 0 0 (by decide) (by decide) (inAreaFrac_nonneg Ex.fmfpIn 0)
      (Ex.locCam "IMG_A" 50 50 50) (by decide) (50, 50, 50) (by decide)
      (by decide) (by decide)⟩

/-- Witness for claim C5 with `keep_ratio = 2` at a three-camera chunk, which
forces the altitude fallback. -/
theorem claim_C5_witness :
    (Ex.fmfpOut.filter rgbPred ≠ [] ∧ Ex.fmfpOut.filter msPred ≠ [] ∧
      inAreaFracOf Ex.fmfpOut 0 < 2 ∧
      Ex.locCam "IMG_A" 50 50 50 ∈ Ex.fmfpOut ∧
      (Ex.locCam "IMG_A" 50 50 50).location = some (50, 50, 50) ∧
      (Ex.locCam "IMG_A" 50 50 50).enabled = true ∧
      pyStarts (Ex.locCam "IMG_A" 50 50 50).label "IMG_" = true) ∧
    ((Ex.locCam "IMG_A" 50 50 50 ∉ (fmfp Ex.fmfpOut 0 2).1 ↔
        (((50 : ℚ) : ℝ) <
            ((meanQ (((Ex.fmfpOut.filter rgbPred).filterMap (fun c => c.location)).map
              (fun q => q.2.2)) : ℚ) : ℝ) -
              2 * Real.sqrt ((varQ (((Ex.fmfpOut.filter rgbPred).filterMap
                (fun c => c.location)).map (fun q => q.2.2)) : ℚ) : ℝ) ∨
          ((meanQ (((Ex.fmfpOut.filter rgbPred).filterMap (fun c => c.location)).map
              (fun q => q.2.2)) : ℚ) : ℝ) +
              2 * Real.sqrt ((varQ (((Ex.fmfpOut.filter rgbPred).filterMap
                (fun c => c.location)).map (fun q => q.2.2)) : ℚ) : ℝ) <
            ((50 : ℚ) : ℝ))) ∧
      (fmfp Ex.fmfpOut 0 2).2 = Ex.fmfpOut.length - (fmfp Ex.fmfpOut 0 2).1.length) :=
  ⟨⟨by decide, by decide, inAreaFrac_lt_two Ex.fmfpOut 0, by decide, by decide,
    by decide, by decide⟩,
    claim_C5 Ex.fmfpOut 0 2 (by decide) (by decide) (inAreaFrac_lt_two Ex.fmfpOut 0)
      (Ex.locCam "IMG_A" 50 50 50) (by decide) (50, 50, 50) (by decide)
      (by decide) (by decide)⟩

end ImgUtils

namespace Markers

/-- The cleanup never adds fields. -/
theorem cleanParts_length_le (parts : List String) :
    (cleanParts parts).length ≤ parts.length := by
  unfold cleanParts
  calc ((parts.map pyStrip).filter (fun p => ¬ p == "")).length ≤
      (parts.map pyStrip).length := List.length_filter_le _ _
    _ = parts.length := List.length_map _ _

/-- The separator loop fails exactly when every separator yields fewer than
four non-empty stripped fields. -/
theorem sepLoop_eq_none_iff :
    ∀ (L : List (Option String)) (s : String),
      sepLoop L s = none ↔ ∀ sep ∈ L, (nonEmptyFields sep s).length < 4 := by
  intro L
  induction L with
  | nil =>
    intro s
    simp [sepLoop]
  | cons sep rest ih =>
    intro s
    unfold sepLoop
    by_cases h1 : 4 ≤ (splitSep sep s).length
    · rw [if_pos h1]
      by_cases h2 : 4 ≤ (cleanParts (splitSep sep s)).length
      · rw [if_pos h2]
        constructor
        · intro h
          cases h
        · intro hall
          have := hall sep (List.mem_cons_self sep rest)
          unfold nonEmptyFields at this
          omega
      · rw [if_neg h2, ih s]
        constructor
        · intro hall sep' hmem
          rcases List.mem_cons.mp hmem with h | h
          · subst h
            unfold nonEmptyFields
            omega
          · exact hall sep' h
        · intro hall sep' hmem
          exact hall sep' (List.mem_cons_of_mem sep hmem)
    · rw [if_neg h1, ih s]
      constructor
      · intro hall sep' hmem
        rcases List.mem_cons.mp hmem with h | h
        · subst h
          unfold nonEmptyFields
          have := cleanParts_length_le (splitSep sep' s)
          omega
        · exact hall sep' h
      · intro hall sep' hmem
        exact hall sep' (List.mem_cons_of_mem sep hmem)

/-- A successful separator loop returns at least four fields. -/
theorem sepLoop_some_length :
    ∀ (L : List (Option String)) (s : String) (parts : List String),
      sepLoop L s = some parts → 4 ≤ parts.length := by
  intro L
  induction L with
  | nil =>
    intro s parts h
    cases h
  | cons sep rest ih =>
    intro s parts h
    unfold sepLoop at h
    by_cases h1 : 4 ≤ (splitSep sep s).length
    · rw [if_pos h1] at h
      by_cases h2 : 4 ≤ (cleanParts (splitSep sep s)).length
      · rw [if_pos h2] at h
        rw [Option.some_inj] at h
        rw [← h]
        exact h2
      · rw [if_neg h2] at h
        exact ih s parts h
    · rw [if_neg h1] at h
      exact ih s parts h

/-- `dictLookup` returns the last binding of the key. -/
theorem dictLookup_eq_getLast (m : List (String × ℚ × ℚ × ℚ)) (k : String) :
    dictLookup m k =
      ((m.filter (fun e => e.1 == k)).getLast?).map (fun e => e.2) := by
  induction m using List.reverseRecOn with
  | nil => rfl
  | append_singleton m e ih =>
    unfold dictLookup at ih ⊢
    rw [List.reverse_append, List.filter_append]
    cases he : (e.1 == k) with
    | false =>
      have hrev : ([e].reverse ++ m.reverse).find? (fun x => x.1 == k) =
          m.reverse.find? (fun x => x.1 == k) := by
        simp [List.find?_cons, he]
      rw [hrev, ih]
      have hfe : [e].filter (fun x => x.1 == k) = [] := by
        simp [List.filter, he]
      rw [hfe, List.append_nil]
    | true =>
      have hrev : ([e].reverse ++ m.reverse).find? (fun x => x.1 == k) =
          some e := by
        simp [List.find?_cons, he]
      rw [hrev]
      have hfe : [e].filter (fun x => x.1 == k) = [e] := by
        simp [List.filter, he]
      rw [hfe, List.getLast?_concat]

/-- The fold building the marker dictionary appends the processed entries in
order. -/
theorem readMarkerFile_eq_filterMap (fp : String → Option ℚ) :
    ∀ (lines : List String) (acc : List (String × ℚ × ℚ × ℚ)),
      lines.foldl
        (fun m line =>
          match processLine fp line with
          | none => m
          | some e => m ++ [e]) acc = acc ++ lines.filterMap (processLine fp) := by
  intro lines
  induction lines with
  | nil =>
    intro acc
    rw [List.foldl_nil, List.filterMap_nil, List.append_nil]
  | cons line lines ih =>
    intro acc
    rw [List.foldl_cons, List.filterMap_cons]
    cases hp : processLine fp line with
    | none => rw [ih]
    | some e =>
      rw [ih, List.append_assoc]
      rfl

/-- Claim C7: `read_marker_file` skips (and never raises on) exactly the
lines that strip to empty, start with `#`, yield fewer than four non-empty
fields under each of the comma, tab and whitespace separators, or whose
second through fourth fields do not all parse as floats; the returned
dictionary maps the first field of each well-formed line to its parsed
coordinates, later lines overwriting earlier ones of the same name. -/
theorem claim_C7 :
    (∀ (fp : String → Option ℚ) (line : String),
      processLine fp line = none ↔
        (pyStrip line = "" ∨ pyStarts (pyStrip line) "#" = true ∨
          (∀ sep ∈ seps, (nonEmptyFields sep (pyStrip line)).length < 4) ∨
          (∃ p0 p1 p2 p3 rest,
            sepLoop seps (pyStrip line) = some (p0 :: p1 :: p2 :: p3 :: rest) ∧
            (fp p1 = none ∨ fp p2 = none ∨ fp p3 = none)))) ∧
    (∀ (fp : String → Option ℚ) (lines : List String),
      readMarkerFile fp lines = lines.filterMap (processLine fp)) ∧
    (∀ (fp : String → Option ℚ) (lines : List String) (name : String),
      dictLookup (readMarkerFile fp lines) name =
        (((lines.filterMap (processLine fp)).filter
          (fun e => e.1 == name)).getLast?).map (fun e => e.2)) := by
  have hb : ∀ (fp : String → Option ℚ) (lines : List String),
      readMarkerFile fp lines = lines.filterMap (processLine fp) := by
    intro fp lines
    unfold readMarkerFile
    rw [readMarkerFile_eq_filterMap fp lines []]
    rfl
  refine ⟨?_, hb, ?_⟩
  · intro fp line
    unfold processLine
    by_cases he : (pyStrip line == "") = true
    · rw [if_pos he]
      exact iff_of_true rfl (Or.inl (beq_iff_eq.mp he))
    · rw [if_neg he]
      have hne : ¬ pyStrip line = "" := fun h => he (beq_iff_eq.mpr h)
      by_cases hh : pyStarts (pyStrip line) "#" = true
      · rw [if_pos hh]
        simp only [true_iff]
        exact Or.inr (Or.inl hh)
      · rw [if_neg hh]
        cases hsl : sepLoop seps (pyStrip line) with
        | none =>
          simp only [true_iff]
          exact Or.inr (Or.inr (Or.inl ((sepLoop_eq_none_iff seps _).mp hsl)))
        | some parts =>
          have hlen := sepLoop_some_length seps _ parts hsl
          match parts, hlen with
          | p0 :: p1 :: p2 :: p3 :: rest, _ =>
            dsimp only
            constructor
            · intro hnone
              refine Or.inr (Or.inr (Or.inr ⟨p0, p1, p2, p3, rest, rfl, ?_⟩))
              cases h1 : fp p1 with
              | none => exact Or.inl rfl
              | some x =>
                cases h2 : fp p2 with
                | none => exact Or.inr (Or.inl rfl)
                | some y =>
                  cases h3 : fp p3 with
                  | none => exact Or.inr (Or.inr rfl)
                  | some z =>
                    rw [h1, h2, h3] at hnone
                    cases hnone
            · intro hrhs
              rcases hrhs with h | h | h | h
              · exact absurd h hne
              · exact absurd h hh
              · exact absurd hsl (by
                  rw [(sepLoop_eq_none_iff seps _).mpr h]
                  simp)
              · obtain ⟨q0, q1, q2, q3, qrest, hq, hfail⟩ := h
                rw [Option.some_inj] at hq
                injection hq with e0 hq
                injection hq with e1 hq
                injection hq with e2 hq
                injection hq with e3 hq
                rcases hfail with h | h | h
                · rw [e1, h]
                · rw [e2, h]
                  cases fp p1 <;> rfl
                · rw [e3, h]
                  cases fp p1 <;> cases fp p2 <;> rfl
  · intro fp lines name
    rw [hb, dictLookup_eq_getLast]

/-- Witness for claim C7: a comment line is skipped and a well-formed line
lands in the dictionary, at a concrete float oracle. -/
theorem claim_C7_witness :
    processLine (fun _ => none) "# comment" = none ∧
    readMarkerFile (fun _ => some 5) ["m1 1 2 3", ""] =
      ["m1 1 2 3", ""].filterMap (processLine (fun _ => some 5)) :=
  ⟨(claim_C7.1 (fun _ => none) "# comment").mpr (Or.inr (Or.inl (by decide))),
    claim_C7.2.1 (fun _ => some 5) ["m1 1 2 3", ""]⟩

end Markers

end TernDrone
